import Mathlib

/-!
# Coroutine primitives and GTK session of spice-gtk

Shallow embedding of `src/coroutine_winfibers.c` (native-fiber backend),
`src/continuation.c` (raw-context backend) and of the functions
`spice_gtk_session_get`, `clipboard_grab`, `check_clipboard_size_limits`,
`strv_concat` and `spice_gtk_session_request_auto_usbredir` of
`src/spice-gtk-session.c`.

The two coroutine files switch between execution contexts in the middle of a C
function.
The embedding is therefore written in continuation-passing style: the code a
context runs is a tree of calls into the API (`Prog`), every C function that
contains a switch is split at the switch into the part before it and the part
that runs when the context is switched back in, and a suspended context is a
record of the locals of the function it is suspended in together with the rest
of its caller.  A machine state holds the memory (the `struct coroutine`
objects), the static variables of the file, the suspended contexts and the code
of the running one; `step` runs one API call of the running context.

The functions of the session file are sequential: each is a function of the
part of the program state it reads and writes, with `none` for an execution
that C leaves undefined or that a failed check ends.
-/

namespace Winfibers

/-- A `void *` value passed through the `data` slot; `NULL` is `0`. -/
abbrev Val := Int

/-- The address of a `struct coroutine`. -/
abbrev CoPtr := Nat

/-- A fiber handle as returned by `CreateFiber` / `ConvertThreadToFiber`. -/
abbrev FiberId := Nat

/-- The code of an execution context, as the tree of its calls into the
coroutine API.  `ret v` is the `return v` of an entry procedure (or of the
thread's main code); every other node is one call followed by the rest of the
code, which receives the value the call returns. -/
inductive Prog where
  | ret (v : Val)
  | yield (arg : Val) (k : Val → Prog)
  | yieldto (dst : CoPtr) (arg : Val) (k : Val → Prog)
  | self (k : CoPtr → Prog)
  | init (co : CoPtr) (entry : Val → Prog) (k : Prog)
  | release (co : CoPtr) (k : Prog)

/-- The fields of `struct coroutine` that `coroutine_winfibers.c` reads or
writes.  A zero-filled object, such as the static `leader`, is the default. -/
structure coroutine where
  entry : Option (Val → Prog) := none
  exited : Int := 0
  caller : Option CoPtr := none
  data : Val := 0
  fiber : Option FiberId := none
  ret : Int := 0

/-- The locals of `coroutine_trampoline`: `co` and the `caller` it read from
`co->caller` when it was entered. -/
structure Tramp where
  co : CoPtr
  caller : Option CoPtr
deriving DecidableEq, Repr

/-- The saved state of a fiber that is not running. -/
inductive Ctx where
  /-- Made by `CreateFiber(0, &coroutine_trampoline, lpParameter)`, never run. -/
  | created (lpParameter : CoPtr)
  /-- Suspended at the `SwitchToFiber` inside `coroutine_swap(src, dst, _)`;
  `k` is the rest of the code that called `coroutine_yieldto` or
  `coroutine_yield`, `base` the trampoline frame underneath (none on the
  thread's own fiber). -/
  | inSwap (src dst : CoPtr) (k : Val → Prog) (base : Option Tramp)
  /-- Suspended at the last statement of `coroutine_trampoline`. -/
  | ended

/-- What the process is doing. -/
inductive Status where
  | running
  /-- The thread's main code returned this value. -/
  | finished (v : Val)
  /-- Ended by `abort()` or `g_error()`. -/
  | aborted
  /-- A fiber procedure returned, or the running fiber deleted itself: the
  thread exits. -/
  | threadExit
  /-- A NULL pointer was dereferenced or a handle that names no fiber was
  switched to. -/
  | undefined
deriving DecidableEq, Repr

/-- Observable events, in the order they happen. -/
inductive Event where
  /-- A call of `SwitchToFiber(f)`. -/
  | switch (f : FiberId)
  /-- A call of `coroutine_release(co)`. -/
  | release (co : CoPtr)
  /-- A call of `DeleteFiber` on this handle. -/
  | delete (f : Option FiberId)
  /-- A call of `co->entry(x)`. -/
  | enter (co : CoPtr) (x : Val)
  /-- The return of `co->entry` with value `v`. -/
  | leave (co : CoPtr) (v : Val)
  /-- A `g_return_val_if_fail` check failed and logged its warning. -/
  | critical
  /-- A message was written to stderr. -/
  | stderr
  /-- The message of `g_error`. -/
  | gerror
deriving DecidableEq, Repr

/-- The address of the static `leader`. -/
def leader : CoPtr := 0

/-- The handle `ConvertThreadToFiber` gives to the thread's own context. -/
def threadFiber : FiberId := 0

/-- State of the process. -/
structure Machine where
  /-- The `struct coroutine` objects, by address. -/
  mem : CoPtr → coroutine
  /-- The static `current`. -/
  current : CoPtr
  /-- The saved state of each fiber that exists and is not running. -/
  fibers : FiberId → Option Ctx
  /-- The handle of the context that is executing. -/
  running : FiberId
  /-- The code the running context executes next. -/
  code : Prog
  /-- The trampoline frame under the running code. -/
  base : Option Tramp
  status : Status
  /-- The value the last API call returned to the running code. -/
  retval : Val
  /-- The next handle `CreateFiber` hands out. -/
  next : FiberId
  /-- How many more native fiber creations succeed. -/
  quota : Nat
  trace : List Event

/-- Overwrite one object of the memory. -/
def setCo (mem : CoPtr → coroutine) (p : CoPtr) (c : coroutine) : CoPtr → coroutine :=
  fun q => if q = p then c else mem q

/-- Overwrite the saved state of one fiber. -/
def setFiber (fibers : FiberId → Option Ctx) (f : FiberId) (c : Option Ctx) :
    FiberId → Option Ctx :=
  fun g => if g = f then c else fibers g

/-- Return `v` from an API call to the running code, whose rest is `k`. -/
def Machine.resume (m : Machine) (k : Val → Prog) (v : Val) : Machine :=
  { m with code := k v, retval := v }

/-- Stop the process. -/
def Machine.stop (m : Machine) (s : Status) : Machine :=
  { m with status := s }

/-- Append an event. -/
def Machine.log (m : Machine) (e : Event) : Machine :=
  { m with trace := m.trace ++ [e] }

/-- The function `g_error(...)`: print and abort. -/
def g_error (m : Machine) : Machine :=
  (m.log .gerror).stop .aborted

/-- The function `DeleteFiber(lpFiber)`.  Deleting the running fiber ends the thread.  The
handle is gone afterwards; a deletion of a handle that names no fiber is
recorded in the trace and has no other effect in the model. -/
def DeleteFiber (m : Machine) (lpFiber : Option FiberId) : Machine :=
  let m := m.log (.delete lpFiber)
  match lpFiber with
  | none => m
  | some f =>
    if f = m.running then m.stop .threadExit
    else { m with fibers := setFiber m.fibers f none }

/-- The function `int coroutine_release(struct coroutine *co)`. -/
def coroutine_release (m : Machine) (co : CoPtr) : Machine :=
  let m := m.log (.release co)
  DeleteFiber m (m.mem co).fiber

/-- The function `struct coroutine *coroutine_self(void)`. -/
def coroutine_self (m : Machine) : CoPtr :=
  m.current

/-- The function `gboolean coroutine_is_main(struct coroutine *co)`. -/
def coroutine_is_main (co : CoPtr) : Bool :=
  co == leader

/-- The part of `coroutine_swap(from, to, arg)`, with `src` for `from` and `dst`
for `to`, after `SwitchToFiber` returns, that is, when the fiber that called it
is switched back in.  Nothing more runs if the release ended the thread. -/
def coroutine_swap_resume (m : Machine) (src dst : CoPtr) (k : Val → Prog) : Machine :=
  if (m.mem dst).ret = 0 then
    m.resume k (m.mem src).data
  else if (m.mem dst).ret = 1 then
    let m := coroutine_release m dst
    if m.status ≠ .running then m
    else
      let m := { m with current := src }
      let m := { m with mem := setCo m.mem dst { m.mem dst with exited := 1 } }
      m.resume k (m.mem dst).data
  else
    m.resume k 0

/-- The part of `coroutine_trampoline(lpParameter)` up to and including the call
of `co->entry(co->data)`: the entry procedure becomes the running code. -/
def coroutine_trampoline (m : Machine) (lpParameter : CoPtr) : Machine :=
  let co := lpParameter
  let caller := (m.mem co).caller
  match (m.mem co).entry with
  | none => m.stop .undefined
  | some entry =>
    let m := m.log (.enter co (m.mem co).data)
    { m with code := entry (m.mem co).data, base := some ⟨co, caller⟩ }

/-- The function `SwitchToFiber(lpFiber)`, called by the running fiber, whose
saved state becomes `here`.  The target continues where it was suspended; a
switch to `NULL`, to the running fiber itself or to a handle that names no
fiber is undefined. -/
def SwitchToFiber (m : Machine) (lpFiber : Option FiberId) (here : Ctx) : Machine :=
  match lpFiber with
  | none => m.stop .undefined
  | some f =>
    let m := m.log (.switch f)
    if f = m.running then m.stop .undefined
    else
      let m := { m with fibers := setFiber m.fibers m.running (some here) }
      match m.fibers f with
      | none => m.stop .undefined
      | some (.created p) =>
        coroutine_trampoline { m with running := f, fibers := setFiber m.fibers f none } p
      | some (.inSwap src dst k base) =>
        coroutine_swap_resume
          { m with running := f, fibers := setFiber m.fibers f none, base := base } src dst k
      | some .ended =>
        { m with running := f, fibers := setFiber m.fibers f none }.stop .threadExit

/-- The part of `coroutine_trampoline` after `co->entry` has returned `v`; `t`
holds the locals `co` and `caller`. -/
def coroutine_trampoline_return (m : Machine) (t : Tramp) (v : Val) : Machine :=
  let m := m.log (.leave t.co v)
  let m := { m with mem := setCo m.mem t.co { m.mem t.co with data := v } }
  let m := { m with mem := setCo m.mem t.co { m.mem t.co with caller := none } }
  let m := { m with mem := setCo m.mem t.co { m.mem t.co with ret := 1 } }
  match t.caller with
  | none => m.stop .undefined
  | some caller => SwitchToFiber m (m.mem caller).fiber .ended

/-- The part of `coroutine_swap(src, dst, arg)` up to and including
`SwitchToFiber(to->fiber)`. -/
def coroutine_swap (m : Machine) (src dst : CoPtr) (arg : Val) (k : Val → Prog) : Machine :=
  let m := { m with mem := setCo m.mem dst { m.mem dst with data := arg } }
  let m := { m with current := dst }
  SwitchToFiber m (m.mem dst).fiber (.inSwap src dst k m.base)

/-- The function `void *coroutine_yieldto(struct coroutine *to, void *arg)`,
with `dst` for `to`.  A failed `g_return_val_if_fail` logs a warning and makes
the function return `NULL` (glib's behaviour unless warnings are configured to
be fatal). -/
def coroutine_yieldto (m : Machine) (dst : CoPtr) (arg : Val) (k : Val → Prog) : Machine :=
  if (m.mem dst).caller ≠ none then (m.log .critical).resume k 0
  else if (m.mem dst).exited ≠ 0 then (m.log .critical).resume k 0
  else
    let m := { m with mem := setCo m.mem dst { m.mem dst with caller := some (coroutine_self m) } }
    coroutine_swap m (coroutine_self m) dst arg k

/-- The function `void *coroutine_yield(void *arg)`. -/
def coroutine_yield (m : Machine) (arg : Val) (k : Val → Prog) : Machine :=
  match (m.mem (coroutine_self m)).caller with
  | none => (m.log .stderr).stop .aborted
  | some dst =>
    let m := { m with mem := setCo m.mem (coroutine_self m)
                                  { m.mem (coroutine_self m) with caller := none } }
    coroutine_swap m (coroutine_self m) dst arg k

/-- The function `ConvertThreadToFiber(&leader)`: the handle of the thread's own context, or
`NULL` when the system refuses. -/
def ConvertThreadToFiber (m : Machine) : Option FiberId × Machine :=
  match m.quota with
  | 0 => (none, m)
  | q + 1 => (some m.running, { m with quota := q })

/-- The function `CreateFiber(0, &coroutine_trampoline, lpParameter)`: a new handle, or
`NULL` when the system refuses. -/
def CreateFiber (m : Machine) (lpParameter : CoPtr) : Option FiberId × Machine :=
  match m.quota with
  | 0 => (none, m)
  | q + 1 =>
    (some m.next, { m with quota := q, next := m.next + 1,
                           fibers := setFiber m.fibers m.next (some (.created lpParameter)) })

/-- The first block of `coroutine_init`: make the thread a fiber if the leader
has no handle yet. -/
def coroutine_init_leader (m : Machine) : Machine :=
  if (m.mem leader).fiber = none then
    let r := ConvertThreadToFiber m
    let m := r.2
    let m := { m with mem := setCo m.mem leader { m.mem leader with fiber := r.1 } }
    if (m.mem leader).fiber = none then g_error m else m
  else m

/-- The function `void coroutine_init(struct coroutine *co)`; `k` is the rest of the caller. -/
def coroutine_init (m : Machine) (co : CoPtr) (k : Prog) : Machine :=
  let m := coroutine_init_leader m
  if m.status ≠ .running then m
  else
    let m := { m with mem := setCo m.mem co { m.mem co with exited := 0 } }
    let r := CreateFiber m co
    let m := r.2
    let m := { m with mem := setCo m.mem co { m.mem co with fiber := r.1 } }
    if (m.mem co).fiber = none then g_error m
    else
      let m := { m with mem := setCo m.mem co { m.mem co with ret := 0 } }
      { m with code := k }

/-- One API call of the running context.  A stopped process stays as it is. -/
def step (m : Machine) : Machine :=
  match m.status with
  | .running =>
    match m.code with
    | .ret v =>
      match m.base with
      | some t => coroutine_trampoline_return m t v
      | none => m.stop (.finished v)
    | .yield arg k => coroutine_yield m arg k
    | .yieldto dst arg k => coroutine_yieldto m dst arg k
    | .self k => { m with code := k (coroutine_self m) }
    | .init co entry k =>
      coroutine_init { m with mem := setCo m.mem co { m.mem co with entry := some entry } } co k
    | .release co k =>
      let m := coroutine_release m co
      if m.status ≠ .running then m else { m with code := k }
  | _ => m

/-- Run `n` API calls. -/
def run : Nat → Machine → Machine
  | 0, m => m
  | n + 1, m => run n (step m)

/-- The process at start: zero-filled memory, `current = &leader`, no fibers,
the thread about to run `main`. -/
def boot (main : Prog) (quota : Nat) : Machine :=
  { mem := fun _ => {}
    current := leader
    fibers := fun _ => none
    running := threadFiber
    code := main
    base := none
    status := .running
    retval := 0
    next := 1
    quota := quota
    trace := [] }

/-- The entry procedure of the round-trip test: `yield(x*2)`, then return what
the yield returned plus one. -/
def roundTripEntry (x : Val) : Prog :=
  .yield (x * 2) fun y => .ret (y + 1)

/-- The process in which the thread has initialised coroutine `1` with
`roundTripEntry` and is about to call `coroutine_yieldto(co, 5)` and then
`coroutine_yieldto(co, 100)`. -/
def roundTripStart : Machine :=
  run 1 (boot (.init 1 roundTripEntry (.yieldto 1 5 fun r =>
    .yieldto 1 100 fun r2 => .ret (r * 1000 + r2))) 10)

/-- Entry of coroutine `2` in `handOver`: start coroutine `1`, then yield. -/
def handOverEntry (_ : Val) : Prog :=
  .yieldto 1 7 fun _ => .yield 2 fun z => .ret z

/-- Coroutine `1` is started by coroutine `2`, yields, and is resumed by the
leader; then its entry returns. -/
def handOver : Machine :=
  boot (.init 1 roundTripEntry (.init 2 handOverEntry
    (.yieldto 2 0 fun _ => .yieldto 1 9 fun r => .ret r))) 10

/-- Entry of coroutine `2` in `staleExit`: start coroutine `1`, then return 99. -/
def staleExitStarter (_ : Val) : Prog :=
  .yieldto 1 7 fun _ => .ret 99

/-- Entry of coroutine `1` in `staleExit`: yield once, return what the yield
returned. -/
def staleExitEntry (_ : Val) : Prog :=
  .yield 1 fun y => .ret y

/-- Coroutine `1` yields to coroutine `2`, which then exits; the leader resumes
coroutine `1` with 42. -/
def staleExit : Machine :=
  boot (.init 1 staleExitEntry (.init 2 staleExitStarter
    (.yieldto 2 0 fun _ => .yieldto 1 42 fun r => .ret r))) 10

/-- Entry of coroutine `2` in `crossResume`: resume coroutine `1`. -/
def crossResumeEntry (_ : Val) : Prog :=
  .yieldto 1 1 fun r => .ret r

/-- The leader starts coroutine `1`, which yields; the leader starts coroutine
`2`, which resumes coroutine `1`, whose entry then returns; afterwards the
leader calls `coroutine_yieldto` on coroutine `1` once more. -/
def crossResume : Machine :=
  boot (.init 1 roundTripEntry (.init 2 crossResumeEntry
    (.yieldto 1 3 fun _ => .yieldto 2 0 fun _ => .yieldto 1 5 fun r => .ret r))) 10

/-- The process at start with coroutine object `1` holding a stale non-NULL
`caller` (the address `7`) in memory the main code did not clear; the main code
initialises it and resumes it. -/
def staleCaller : Machine :=
  { boot (.init 1 roundTripEntry (.yieldto 1 5 fun r => .ret r)) 10 with
    mem := fun p => if p = 1 then { caller := some 7 } else {} }

/-- Whether the code is about to call `coroutine_init` on the object `c`. -/
def initialises (c : CoPtr) : Prog → Bool
  | .init co _ _ => co == c
  | _ => false

/-- The sending side of the ping-pong: for each value of the list in turn, call
`coroutine_yieldto(b, x)` and record what the call returns; `got` holds the
values returned so far, `k` is the rest of the code, given all of them. -/
def ping (b : CoPtr) : List Val → List Val → (List Val → Prog) → Prog
  | [], got, k => k got
  | x :: xs, got, k => .yieldto b x fun r => ping b xs (got ++ [r]) k

/-- The receiving side of the ping-pong, given the value `x` it has just
received (as the argument of its entry, or as the value its last yield
returned): record `x`, and for each value of the list in turn call
`coroutine_yield(y)`; `fin` is what it does when the list is used up. -/
def pong : List Val → List Val → (List Val → Val → Prog) → Val → Prog
  | [], got, fin, x => fin got x
  | y :: ys, got, fin, x => .yield y (pong ys (got ++ [x]) fin)

/-- Coroutine `a` is current and runs on a fiber of its own, its entry has not
returned, and coroutine `b`, another object, has the fiber `f`, is neither
resumed nor exited. -/
def pingPongReady (m : Machine) (a b : CoPtr) (f : FiberId) : Prop :=
  m.status = .running ∧ m.current = a ∧ b ≠ a ∧ (m.mem a).fiber = some m.running ∧
  (m.mem a).ret = 0 ∧ (m.mem b).ret = 0 ∧ (m.mem b).exited = 0 ∧ (m.mem b).caller = none ∧
  (m.mem b).fiber = some f ∧ f ≠ m.running

/-- The leader has initialised coroutine `1` as the receiving side, which sends
back 10, 20, 30, and is about to send it 1, 2, 3. -/
def pingPongStart : Machine :=
  run 1 (boot (.init 1 (pong [10, 20, 30] [] fun _ x => .ret x)
    (ping 1 [1, 2, 3] [] fun got => .ret got.sum)) 10)

/-- The code that sets the entry of each coroutine object of the list and calls
`coroutine_init` on it, one after the other, and then goes on with `k`. -/
def initSeq : List (CoPtr × (Val → Prog)) → Prog → Prog
  | [], k => k
  | c :: rest, k => .init c.1 c.2 (initSeq rest k)

/-- The process at start about to initialise the coroutine objects `1`, `2` and
`3` with the round-trip entry. -/
def initThree : Machine :=
  boot (initSeq [(1, roundTripEntry), (2, roundTripEntry), (3, roundTripEntry)] (.ret 0)) 10

end Winfibers

namespace Continuation

/-- The address of a `struct continuation`. -/
abbrev CcPtr := Nat

/-- The code of an execution context, as the tree of its calls into the
continuation API.  `ret` is the return of an entry procedure (or of the main
code); every other node is one call followed by the rest of the code. -/
inductive Prog where
  | ret
  | swap (src dst : CcPtr) (k : Int → Prog)
  | init (cc : CcPtr) (k : Prog)
  | release (cc : CcPtr) (k : Int → Prog)

/-- The contents of a `jmp_buf` written by `_setjmp`: the place to continue at
when `_longjmp` is called on it. -/
inductive Jmp where
  /-- Written by the `_setjmp(cc->jmp)` of `continuation_trampoline`. -/
  | trampoline (cc : CcPtr)
  /-- Written by the `_setjmp(from->jmp)` of `cc_swap(src, dst)`; `k` is the rest
  of the caller, `base` the continuation whose trampoline frame is underneath
  (none on the main stack). -/
  | swap (src dst : CcPtr) (k : Int → Prog) (base : Option CcPtr)

/-- The value of the `last` pointer. -/
inductive Last where
  | null
  /-- The address `&uc_ret` of a local of `cc_init`. -/
  | ucRet
  /-- The address `&from->jmp`. -/
  | jmpOf (src : CcPtr)
deriving DecidableEq, Repr

/-- The fields of `struct continuation` that `continuation.c` reads or writes. -/
structure continuation where
  entry : Option (CcPtr → Prog) := none
  release : Option (CcPtr → Int) := none
  exited : Int := 0
  jmp : Option Jmp := none
  last : Last := .null

/-- What the process is doing. -/
inductive Status where
  | running
  /-- The main code returned. -/
  | finished
  /-- Ended by `g_error()`. -/
  | aborted
  /-- A jump through a pointer that holds no checkpoint, or a call through a
  NULL function pointer. -/
  | undefined
deriving DecidableEq, Repr

/-- Observable events, in the order they happen. -/
inductive Event where
  /-- A call of `cc->entry(cc)`. -/
  | enter (cc : CcPtr)
  /-- The return of `cc->entry`. -/
  | leave (cc : CcPtr)
  /-- A call of `_longjmp` on the `jmp` field of this continuation. -/
  | longjmp (cc : CcPtr)
  /-- A call of `cc->release(cc)`. -/
  | release (cc : CcPtr)
  /-- The message of `g_error`. -/
  | gerror
deriving DecidableEq, Repr

/-- State of the process. -/
structure Machine where
  /-- The `struct continuation` objects, by address. -/
  mem : CcPtr → continuation
  /-- The code that executes next. -/
  code : Prog
  /-- The continuation whose trampoline frame is under the running code. -/
  base : Option CcPtr
  status : Status
  /-- The value the last API call returned to the running code. -/
  retval : Int
  /-- Width of a pointer in bits. -/
  ptrBits : Nat
  /-- Whether the next `getcontext` returns -1. -/
  getcontextFails : Bool
  /-- Whether the next `swapcontext` returns -1. -/
  swapcontextFails : Bool
  /-- Whether the next `setcontext` returns -1. -/
  setcontextFails : Bool
  trace : List Event

/-- Overwrite one object of the memory. -/
def setCc (mem : CcPtr → continuation) (p : CcPtr) (c : continuation) :
    CcPtr → continuation :=
  fun q => if q = p then c else mem q

/-- Return `v` from an API call to the running code, whose rest is `k`. -/
def Machine.resume (m : Machine) (k : Int → Prog) (v : Int) : Machine :=
  { m with code := k v, retval := v }

/-- Stop the process. -/
def Machine.stop (m : Machine) (s : Status) : Machine :=
  { m with status := s }

/-- Append an event. -/
def Machine.log (m : Machine) (e : Event) : Machine :=
  { m with trace := m.trace ++ [e] }

/-- The function `g_error(...)`: print and abort. -/
def g_error (m : Machine) : Machine :=
  (m.log .gerror).stop .aborted

/-- The value of a 32-bit `int` whose bit pattern is `n % 2^32`. -/
def intOfBits (n : Nat) : Int :=
  if n % 2 ^ 32 < 2 ^ 31 then (n % 2 ^ 32 : Nat) else (n % 2 ^ 32 : Nat) - 2 ^ 32

/-- The bit pattern of a 32-bit `int`. -/
def bitsOfInt (i : Int) : Nat :=
  (i % 2 ^ 32).toNat

/-- The members `i[0]`, `i[1]` of `union cc_arg` after `arg.p = p`
(least significant half first; bytes the pointer does not cover read as zero). -/
def cc_arg_split (p : Nat) : Int × Int :=
  (intOfBits p, intOfBits (p / 2 ^ 32))

/-- The member `p` of `union cc_arg` initialised with `{{ i0, i1 }}`, for a
pointer of `ptrBits` bits. -/
def cc_arg_join (ptrBits : Nat) (i0 i1 : Int) : Nat :=
  (bitsOfInt i0 + 2 ^ 32 * bitsOfInt i1) % 2 ^ ptrBits

/-- The part of `cc_swap(from, to)`, with `src` for `from` and `dst` for `to`,
that runs when `_setjmp(from->jmp)` returns for the second time. -/
def cc_swap_resume (m : Machine) (_src dst : CcPtr) (k : Int → Prog) : Machine :=
  m.resume k (m.mem dst).exited

/-- The branch of `continuation_trampoline` taken when `_setjmp(cc->jmp)` returns
non-zero, up to and including the call `cc->entry(cc)`. -/
def continuation_trampoline_enter (m : Machine) (cc : CcPtr) : Machine :=
  match (m.mem cc).entry with
  | none => m.stop .undefined
  | some entry => { m.log (.enter cc) with code := entry cc, base := some cc }

/-- The call `_longjmp(env, 1)` where `env` is the `jmp` field of `owner`. -/
def _longjmp (m : Machine) (owner : CcPtr) : Machine :=
  let m := m.log (.longjmp owner)
  match (m.mem owner).jmp with
  | none => m.stop .undefined
  | some (.trampoline cc) => continuation_trampoline_enter m cc
  | some (.swap src dst k base) => cc_swap_resume { m with base := base } src dst k

/-- The rest of that branch of `continuation_trampoline`, after `cc->entry(cc)`
has returned. -/
def continuation_trampoline_leave (m : Machine) (cc : CcPtr) : Machine :=
  let m := m.log (.leave cc)
  let m := { m with mem := setCc m.mem cc { m.mem cc with exited := 1 } }
  match (m.mem cc).last with
  | .jmpOf src => _longjmp m src
  | _ => m.stop .undefined

/-- The function `continuation_trampoline(i0, i1)` when entered through `swapcontext` from
`cc_init`, whose caller continues with `k`: `_setjmp` returns 0, so the branch is
skipped and the function leaves through `setcontext(cc->last)`. -/
def continuation_trampoline (m : Machine) (i0 i1 : Int) (k : Prog) : Machine :=
  let cc := cc_arg_join m.ptrBits i0 i1
  let m := { m with mem := setCc m.mem cc { m.mem cc with jmp := some (.trampoline cc) } }
  match (m.mem cc).last with
  | .ucRet => if m.setcontextFails then g_error m else { m with code := k }
  | _ => m.stop .undefined

/-- The function `void cc_init(struct continuation *cc)`; `k` is the rest of the caller. -/
def cc_init (m : Machine) (cc : CcPtr) (k : Prog) : Machine :=
  let arg := cc_arg_split cc
  if m.getcontextFails then g_error m
  else
    let m := { m with mem := setCc m.mem cc { m.mem cc with exited := 0 } }
    let m := { m with mem := setCc m.mem cc { m.mem cc with last := .ucRet } }
    if m.swapcontextFails then { m with code := k }
    else continuation_trampoline m arg.1 arg.2 k

/-- The function `int cc_release(struct continuation *cc)`. -/
def cc_release (m : Machine) (cc : CcPtr) (k : Int → Prog) : Machine :=
  match (m.mem cc).release with
  | some release => (m.log (.release cc)).resume k (release cc)
  | none => m.resume k 0

/-- The function `int cc_swap(struct continuation *from, struct continuation *to)`, up to the
`_longjmp(to->jmp, 1)`. -/
def cc_swap (m : Machine) (src dst : CcPtr) (k : Int → Prog) : Machine :=
  if (m.mem dst).exited = 0 then
    let m := { m with mem := setCc m.mem dst { m.mem dst with last := .jmpOf src } }
    let m := { m with mem := setCc m.mem src
                        { m.mem src with jmp := some (.swap src dst k m.base) } }
    _longjmp m dst
  else
    g_error m

/-- One API call of the running code.  A stopped process stays as it is. -/
def step (m : Machine) : Machine :=
  match m.status with
  | .running =>
    match m.code with
    | .ret =>
      match m.base with
      | some cc => continuation_trampoline_leave m cc
      | none => m.stop .finished
    | .swap src dst k => cc_swap m src dst k
    | .init cc k => cc_init m cc k
    | .release cc k => cc_release m cc k
  | _ => m

/-- Run `n` API calls. -/
def run : Nat → Machine → Machine
  | 0, m => m
  | n + 1, m => run n (step m)

/-- The process at start, on a platform with 64-bit pointers where no native
call fails: `mem` holds the objects the main code has filled in. -/
def boot (mem : CcPtr → continuation) (main : Prog) : Machine :=
  { mem := mem
    code := main
    base := none
    status := .running
    retval := 0
    ptrBits := 64
    getcontextFails := false
    swapcontextFails := false
    setcontextFails := false
    trace := [] }

/-- Entry of continuation `2` in `finishedTwice`: return at once. -/
def returnAtOnce (_ : CcPtr) : Prog :=
  .ret

/-- The main code, as continuation `1`, creates continuation `2`, swaps into it
until it has finished, and swaps into it again. -/
def finishedTwice : Machine :=
  boot (fun p => if p = 2 then { entry := some returnAtOnce } else {})
    (.init 2 (.swap 1 2 fun _ => .swap 1 2 fun _ => .ret))

/-- The process of `finishedTwice` up to the first swap, on a system whose
`swapcontext` fails (returns -1) when `cc_init` calls it. -/
def swapcontextRefused : Machine :=
  { boot (fun p => if p = 2 then { entry := some returnAtOnce } else {})
      (.init 2 (.swap 1 2 fun _ => .ret)) with swapcontextFails := true }

/-- Whether the code is about to call `cc_init` on the object `c`. -/
def initialises (c : CcPtr) : Prog → Bool
  | .init cc _ => cc == c
  | _ => false

/-- Whether the next step is the return of the entry procedure of `c`. -/
def entryReturns (m : Machine) (c : CcPtr) : Bool :=
  match m.status, m.code, m.base with
  | .running, .ret, some cc => cc == c
  | _, _, _ => false

/-- Entry of continuation `2` in `swapBack`: swap back into the main code (as
continuation `1`) once, then return. -/
def swapBackEntry (_ : CcPtr) : Prog :=
  .swap 2 1 fun _ => .ret

/-- The main code, as continuation `1`, creates continuation `2` and swaps into
it twice: the first time `2` swaps back, the second time its entry returns. -/
def swapBack : Machine :=
  boot (fun p => if p = 2 then { entry := some swapBackEntry } else {})
    (.init 2 (.swap 1 2 fun _ => .swap 1 2 fun _ => .ret))

/-- The main code calls `cc_release` on continuation `2`, whose `release`
callback returns 7, and on continuation `3`, which has none. -/
def releaseBoth : Machine :=
  boot (fun p => if p = 2 then { release := some fun _ => 7 } else {})
    (.release 2 fun _ => .release 3 fun _ => .ret)

/-- Entry of continuation `3` in `lastResumer`: swap into continuation `2`, then
return. -/
def resumeTwoEntry (_ : CcPtr) : Prog :=
  .swap 3 2 fun _ => .ret

/-- The main code, as continuation `1`, starts continuation `2`, which swaps
back; it then starts continuation `3`, which swaps into `2`, whose entry then
returns. -/
def lastResumer : Machine :=
  boot (fun p => if p = 2 then { entry := some swapBackEntry }
      else if p = 3 then { entry := some resumeTwoEntry } else {})
    (.init 2 (.init 3 (.swap 1 2 fun _ => .swap 1 3 fun _ => .ret)))

end Continuation

namespace GtkSession

/-- The GObject world `spice_gtk_session_get` works on.  Objects are named by
their addresses. -/
structure ObjWorld where
  /-- Whether `SPICE_IS_SESSION` holds of the address. -/
  is_session : Nat → Bool
  /-- The value of `g_object_get_data(session, "spice-gtk-session")`; `none` is
  `NULL`. -/
  data : Nat → Option Nat
  /-- The address `g_object_new` hands out next. -/
  next : Nat
  /-- The objects made by `g_object_new(SPICE_TYPE_GTK_SESSION, "session",
  session, NULL)`, with their sessions, in order. -/
  created : List (Nat × Nat)
  /-- The number of warnings logged by failed `g_return_val_if_fail` checks. -/
  criticals : Nat

/-- The function `spice_gtk_session_get(session)`, run by one thread at a time
(its body holds a mutex): the object returned (`none` is `NULL`) and the world
afterwards. -/
def spice_gtk_session_get (w : ObjWorld) (session : Nat) : Option Nat × ObjWorld :=
  if w.is_session session = false then (none, { w with criticals := w.criticals + 1 })
  else
    match w.data session with
    | some self => (some self, w)
    | none =>
      let self := w.next
      (some self,
        { w with
          next := w.next + 1
          created := w.created ++ [(self, session)]
          data := fun s => if s = session then some self else w.data s })

/-- A sequence of calls of `spice_gtk_session_get`: the objects returned, in
order, and the world afterwards. -/
def getAll : ObjWorld → List Nat → List (Option Nat) × ObjWorld
  | w, [] => ([], w)
  | w, session :: rest =>
    let r := spice_gtk_session_get w session
    let rs := getAll r.2 rest
    (r.1 :: rs.1, rs.2)

/-- Every object recorded on a session has an address already handed out, and no
object is recorded on two sessions. -/
def ObjWorld.oneToOne (w : ObjWorld) : Prop :=
  (∀ s o, w.data s = some o → o < w.next) ∧
  (∀ s1 s2 o, w.data s1 = some o → w.data s2 = some o → s1 = s2)

/-- A world in which the addresses below 100 are sessions and no
`SpiceGtkSession` exists yet. -/
def freshWorld : ObjWorld :=
  { is_session := fun p => decide (0 < p ∧ p < 100), data := fun _ => none, next := 1000,
    created := [], criticals := 0 }

/-- One row of the table `atom2agent`. -/
structure AtomAgent where
  xatom : String
  vdagent : Nat
deriving DecidableEq, Repr

/-- The table `atom2agent`; the agent types are the values of
`VD_AGENT_CLIPBOARD_UTF8_TEXT` (1), `_IMAGE_PNG` (2), `_IMAGE_BMP` (3),
`_IMAGE_TIFF` (4), `_IMAGE_JPG` (5) and `_FILE_LIST` (6) of the protocol
header. -/
def atom2agent : List AtomAgent :=
  [⟨"UTF8_STRING", 1⟩, ⟨"text/plain;charset=utf-8", 1⟩, ⟨"STRING", 1⟩, ⟨"TEXT", 1⟩,
   ⟨"text/plain", 1⟩, ⟨"image/png", 2⟩, ⟨"image/bmp", 3⟩, ⟨"image/x-bmp", 3⟩,
   ⟨"image/x-MS-bmp", 3⟩, ⟨"image/x-win-bitmap", 3⟩, ⟨"image/tiff", 4⟩,
   ⟨"image/jpeg", 5⟩, ⟨"text/uri-list", 6⟩]

/-- The fields of a `GtkTargetEntry` that `clipboard_grab` writes. -/
structure GtkTargetEntry where
  target : String
  info : Nat
deriving DecidableEq, Repr

/-- The locals of `clipboard_grab` that its two loops work on.  The array
`targets` has one slot per table row; a slot never written holds `none`. -/
structure GrabState where
  targets : List (Option GtkTargetEntry)
  target_selected : List Bool
  found : Bool
  num_targets : Nat
  /-- The number of "couldn't find a matching type" warnings. -/
  warnings : Nat
deriving DecidableEq, Repr

/-- The body of the inner loop of `clipboard_grab` for the row index `m` and the
agent type `ty`.  A failed `g_return_val_if_fail(num_targets < N, FALSE)` ends
the function: there is no next state then. -/
def grab_row (tbl : List AtomAgent) (ty : Nat) (s : GrabState) (m : Nat) : Option GrabState :=
  match tbl[m]? with
  | none => some s
  | some row =>
    if row.vdagent = ty ∧ s.target_selected.getD m false = false then
      if s.num_targets < tbl.length then
        some { s with
          found := true
          targets := s.targets.set s.num_targets (some ⟨row.xatom, m⟩)
          target_selected := s.target_selected.set m true
          num_targets := s.num_targets + 1 }
      else none
    else some s

/-- The inner loop of `clipboard_grab` over the row indices `ms`. -/
def grab_rows (tbl : List AtomAgent) (ty : Nat) : List Nat → GrabState → Option GrabState
  | [], s => some s
  | m :: ms, s =>
    match grab_row tbl ty s m with
    | none => none
    | some s1 => grab_rows tbl ty ms s1

/-- The outer loop of `clipboard_grab` over the agent types. -/
def grab_types (tbl : List AtomAgent) : List Nat → GrabState → Option GrabState
  | [], s => some s
  | ty :: tys, s =>
    match grab_rows tbl ty (List.range tbl.length) { s with found := false } with
    | none => none
    | some s1 =>
      grab_types tbl tys (if s1.found then s1 else { s1 with warnings := s1.warnings + 1 })

/-- The locals of `clipboard_grab` before its loops, for a table of `n` rows. -/
def grabStart (n : Nat) : GrabState :=
  { targets := List.replicate n none, target_selected := List.replicate n false,
    found := false, num_targets := 0, warnings := 0 }

/-- The loops of `clipboard_grab(main, selection, types, ntypes, user_data)`:
the state of `targets`, `target_selected` and `num_targets` after them, or
nothing if the bound check made the function return `FALSE`. -/
def clipboard_grab_targets (types : List Nat) : Option GrabState :=
  grab_types atom2agent types (grabStart atom2agent.length)

/-- The entries `targets[0 .. num_targets - 1]`. -/
def GrabState.written (s : GrabState) : List GtkTargetEntry :=
  (s.targets.take s.num_targets).filterMap id

/-- What the loops of `clipboard_grab` keep true, for a table of `n` rows: the
arrays have `n` slots, the first `num_targets` slots of `targets` are written,
their `info` values are pairwise distinct and are exactly the rows marked in
`target_selected`. -/
def GrabState.ok (s : GrabState) (n : Nat) : Prop :=
  s.targets.length = n ∧ s.target_selected.length = n ∧
  s.written.length = s.num_targets ∧ (s.written.map (·.info)).Nodup ∧
  ∀ i, i ∈ s.written.map (·.info) ↔ s.target_selected[i]? = some true

/-- The function `check_clipboard_size_limits(session, clipboard_len)`;
`max_clipboard` is the value `g_object_get` reads from the "max-clipboard"
property of the main channel. -/
def check_clipboard_size_limits (max_clipboard clipboard_len : Int) : Bool :=
  if max_clipboard ≠ -1 ∧ clipboard_len > max_clipboard then false
  else if clipboard_len ≤ 0 then false
  else true

/-- What `spice_gtk_session_request_auto_usbredir` does to its surroundings. -/
inductive UsbEvent where
  /-- The call `g_object_set(manager, "auto-connect", state, NULL)`. -/
  | autoConnect (state : Bool)
  /-- The call `spice_desktop_integration_inhibit_automount`. -/
  | inhibit
  /-- The call `spice_desktop_integration_uninhibit_automount`. -/
  | uninhibit
deriving DecidableEq, Repr

/-- The part of the session `spice_gtk_session_request_auto_usbredir` works on. -/
structure UsbState where
  auto_usbredir_enable : Bool
  auto_usbredir_reqs : Int
  /-- Whether `spice_usb_device_manager_get` returns a manager (not `NULL`). -/
  manager : Bool
  /-- The calls made on the manager and the desktop integration, in order. -/
  events : List UsbEvent
  /-- The number of warnings logged by failed `g_return_if_fail` checks. -/
  criticals : Nat
deriving DecidableEq, Repr

/-- The largest value of an `int`. -/
def INT_MAX : Int := 2 ^ 31 - 1

/-- The end of `spice_gtk_session_request_auto_usbredir`, from the test of
`auto_usbredir_enable` on. -/
def request_auto_usbredir_apply (s : UsbState) (state : Bool) : UsbState :=
  if !s.auto_usbredir_enable then s
  else if !s.manager then s
  else
    { s with events := s.events ++
        [UsbEvent.autoConnect state, if state then UsbEvent.inhibit else UsbEvent.uninhibit] }

/-- The function `spice_gtk_session_request_auto_usbredir(self, state)` on a
valid session.  The increment of an `int` that holds `INT_MAX` is undefined:
there is no result then. -/
def spice_gtk_session_request_auto_usbredir (s : UsbState) (state : Bool) : Option UsbState :=
  if state then
    if s.auto_usbredir_reqs = INT_MAX then none
    else
      let s := { s with auto_usbredir_reqs := s.auto_usbredir_reqs + 1 }
      if s.auto_usbredir_reqs ≠ 1 then some s
      else some (request_auto_usbredir_apply s state)
  else
    if ¬ (s.auto_usbredir_reqs > 0) then some { s with criticals := s.criticals + 1 }
    else
      let s := { s with auto_usbredir_reqs := s.auto_usbredir_reqs - 1 }
      if s.auto_usbredir_reqs ≠ 0 then some s
      else some (request_auto_usbredir_apply s state)

/-- A sequence of calls of `spice_gtk_session_request_auto_usbredir`. -/
def requestAll : UsbState → List Bool → Option UsbState
  | s, [] => some s
  | s, state :: rest =>
    match spice_gtk_session_request_auto_usbredir s state with
    | none => none
    | some s1 => requestAll s1 rest

/-- A session with no request pending. -/
def usbStart (enable manager : Bool) : UsbState :=
  { auto_usbredir_enable := enable, auto_usbredir_reqs := 0, manager := manager,
    events := [], criticals := 0 }

/-- The value of `strlen(s)` for the bytes `s` found at a `gchar *`: the number
of bytes before the first NUL. -/
def strlen (s : List Nat) : Nat :=
  (s.takeWhile (· ≠ 0)).length

/-- The bytes a string copy writes: the bytes before the first NUL, and the
NUL. -/
def cstring (s : List Nat) : List Nat :=
  s.takeWhile (· ≠ 0) ++ [0]

/-- The first loop of `strv_concat`: `*size_out += strlen(*str_p) + 1` for each
string, in `gsize` arithmetic of `bits` bits, from the value `size`. -/
def strv_size (bits : Nat) : List (List Nat) → Nat → Nat
  | [], size => size
  | s :: rest, size => strv_size bits rest ((size + (strlen s + 1)) % 2 ^ bits)

/-- The function `g_stpcpy(dest, src)` on the buffer `arr`, with `dest` as an
offset into it: the string and its NUL are written at `dest` and the offset of
that NUL is returned.  A write beyond the end of the buffer has no result. -/
def g_stpcpy (arr : List (Option Nat)) (dest : Nat) (src : List Nat) :
    Option (List (Option Nat) × Nat) :=
  if dest + (cstring src).length ≤ arr.length then
    some (arr.take dest ++ (cstring src).map some ++ arr.drop (dest + (cstring src).length),
      dest + strlen src)
  else none

/-- The second loop of `strv_concat`: `curr = g_stpcpy(curr, *str_p) + 1` for
each string. -/
def strv_copy : List (List Nat) → List (Option Nat) → Nat → Option (List (Option Nat))
  | [], arr, _ => some arr
  | s :: rest, arr, curr =>
    match g_stpcpy arr curr s with
    | none => none
    | some (arr1, nul) => strv_copy rest arr1 (nul + 1)

/-- The function `strv_concat(strv, size_out)` for a vector `strv` (the strings
before its terminating `NULL`): the buffer returned and the value stored in
`*size_out`.  The buffer `g_malloc` returns holds no defined byte (`none`)
until it is written. -/
def strv_concat (bits : Nat) (strv : List (List Nat)) : Option (List (Option Nat) × Nat) :=
  let size_out := strv_size bits strv 0
  let arr := List.replicate size_out none
  match strv_copy strv arr 0 with
  | none => none
  | some arr1 => some (arr1, size_out)

end GtkSession

/-! ## Native-fiber backend: theorems -/

namespace Winfibers

/-- A stopped process stays as it is, however many calls are run. -/
theorem fiber_run_of_stopped (n : Nat) (m : Machine) (h : m.status ≠ .running) : run n m = m := by
  induction n with
  | zero => rfl
  | succ n ih =>
    have hs : step m = m := by
      unfold step
      split
      · rename_i heq
        exact absurd heq h
      · rfl
    simp [run, hs, ih]

/-- C1: with the leader current and running on its own fiber, and `co` freshly
initialised with the round-trip entry, `coroutine_yieldto(co, a)` returns `2*a`
and leaves `co.exited` false, and the following `coroutine_yieldto(co, b)`
returns `b+1` and leaves `co.exited` true. -/
theorem roundtrip_yieldto (m : Machine) (co : CoPtr) (f : FiberId) (a b : Val)
    (k : Val → Val → Prog)
    (hst : m.status = .running)
    (hcur : m.current = leader)
    (hne : co ≠ leader)
    (hlf : (m.mem leader).fiber = some m.running)
    (hlr : (m.mem leader).ret = 0)
    (hentry : (m.mem co).entry = some roundTripEntry)
    (hcaller : (m.mem co).caller = none)
    (hex : (m.mem co).exited = 0)
    (hret : (m.mem co).ret = 0)
    (hfib : (m.mem co).fiber = some f)
    (hf : f ≠ m.running)
    (hctx : m.fibers f = some (.created co))
    (hcode : m.code = .yieldto co a fun r => .yieldto co b (k r)) :
    (run 2 m).code = .yieldto co b (k (2 * a)) ∧ (run 2 m).retval = 2 * a ∧
    ((run 2 m).mem co).exited = 0 ∧ (run 2 m).status = .running ∧
    (run 4 m).code = k (2 * a) (b + 1) ∧ (run 4 m).retval = b + 1 ∧
    ((run 4 m).mem co).exited = 1 ∧ (run 4 m).status = .running := by
  obtain ⟨mem, current, fibers, running, code, base, status, retval, next, quota, trace⟩ := m
  simp only at hst hcur hlf hlr hentry hcaller hex hret hfib hf hctx hcode
  subst hst hcur hcode
  have hne' : leader ≠ co := fun h => hne h.symm
  have hf' : running ≠ f := fun h => hf h.symm
  have h2 : a * 2 = 2 * a := mul_comm a 2
  simp [run, step, coroutine_yieldto, coroutine_swap, coroutine_self, SwitchToFiber,
    coroutine_trampoline, coroutine_yield, coroutine_swap_resume, coroutine_trampoline_return,
    coroutine_release, DeleteFiber, Machine.log, Machine.resume, Machine.stop, setCo, setFiber,
    roundTripEntry, hne, hne', hf, hf', hlf, hlr, hentry, hcaller, hex, hret, hfib, hctx, h2]

/-- The round trip at `a = 5`, `b = 100`: the calls return 10 and 101. -/
theorem roundtrip_yieldto_witness :
    (run 2 roundTripStart).retval = 2 * 5 ∧ ((run 2 roundTripStart).mem 1).exited = 0 ∧
    (run 4 roundTripStart).retval = 100 + 1 ∧ ((run 4 roundTripStart).mem 1).exited = 1 :=
  have h := roundtrip_yieldto roundTripStart 1 1 5 100 (fun r r2 => .ret (r * 1000 + r2))
    (by decide) (by decide) (by decide) (by decide) (by decide) rfl (by decide) (by decide)
    (by decide) (by decide) (by decide) rfl rfl
  ⟨h.2.1, h.2.2.1, h.2.2.2.2.2.1, h.2.2.2.2.2.2.1⟩

/-- C2 as stated fails: after the round trip coroutine `1` has exited, and
`coroutine_yieldto` on it does not abort; the process keeps running and the
call returns `NULL`. -/
theorem yieldto_exited_not_fatal :
    ¬ (((run 4 roundTripStart).mem 1).exited ≠ 0 ∨ ((run 4 roundTripStart).mem 1).caller ≠ none →
        (coroutine_yieldto (run 4 roundTripStart) 1 7 Prog.ret).status = Status.aborted) ∧
    (coroutine_yieldto (run 4 roundTripStart) 1 7 Prog.ret).status = Status.running ∧
    (coroutine_yieldto (run 4 roundTripStart) 1 7 Prog.ret).retval = 0 := by
  decide

/-- C2 (amended): when `to.exited` is set or `to.caller` is present,
`coroutine_yieldto(to, arg)` logs a warning and returns `NULL` to its caller
without stopping the process; no fiber is switched to and no entry procedure is
called (the trace gains the warning only, the running fiber and all saved
fibers are as before). -/
theorem yieldto_rejected_returns_null (m : Machine) (dst : CoPtr) (arg : Val) (k : Val → Prog)
    (h : (m.mem dst).exited ≠ 0 ∨ (m.mem dst).caller ≠ none) :
    (coroutine_yieldto m dst arg k).status = m.status ∧
    (coroutine_yieldto m dst arg k).code = k 0 ∧
    (coroutine_yieldto m dst arg k).retval = 0 ∧
    (coroutine_yieldto m dst arg k).running = m.running ∧
    (coroutine_yieldto m dst arg k).fibers = m.fibers ∧
    (coroutine_yieldto m dst arg k).trace = m.trace ++ [Event.critical] := by
  unfold coroutine_yieldto
  by_cases hc : (m.mem dst).caller ≠ none
  · simp [hc, Machine.log, Machine.resume]
  · have he : (m.mem dst).exited ≠ 0 := h.resolve_right hc
    simp [hc, he, Machine.log, Machine.resume]

/-- The rejected call on the exited coroutine of the round trip. -/
theorem yieldto_rejected_returns_null_witness :
    (((run 4 roundTripStart).mem 1).exited ≠ 0 ∨ ((run 4 roundTripStart).mem 1).caller ≠ none) ∧
    (coroutine_yieldto (run 4 roundTripStart) 1 7 Prog.ret).status = (run 4 roundTripStart).status ∧
    (coroutine_yieldto (run 4 roundTripStart) 1 7 Prog.ret).retval = 0 :=
  have h := yieldto_rejected_returns_null (run 4 roundTripStart) 1 7 Prog.ret (by decide)
  ⟨by decide, h.1, h.2.2.1⟩

/-- C3: when the current coroutine has no recorded caller, `coroutine_yield(arg)`
aborts the process, with `current` and every coroutine object (data slots and
caller fields included) as they were before the call; nothing runs afterwards. -/
theorem yield_without_caller_aborts (m : Machine) (arg : Val) (k : Val → Prog)
    (hst : m.status = .running) (hcode : m.code = .yield arg k)
    (h : (m.mem (coroutine_self m)).caller = none) :
    (step m).status = .aborted ∧ (step m).current = m.current ∧ (step m).mem = m.mem ∧
    (step m).fibers = m.fibers ∧ (step m).running = m.running ∧
    (step m).trace = m.trace ++ [Event.stderr] ∧ ∀ n, run n (step m) = step m := by
  have hs : step m = (m.log .stderr).stop .aborted := by
    simp [step, hst, hcode, coroutine_yield, h]
  refine ⟨?_, ?_, ?_, ?_, ?_, ?_, ?_⟩ <;> try (simp [hs, Machine.log, Machine.stop])
  intro n
  apply fiber_run_of_stopped
  simp [hs, Machine.log, Machine.stop]

/-- The leader, current at start, calls `coroutine_yield(3)`. -/
theorem yield_without_caller_aborts_witness :
    (boot (.yield 3 Prog.ret) 10).current = leader ∧
    ((boot (.yield 3 Prog.ret) 10).mem (coroutine_self (boot (.yield 3 Prog.ret) 10))).caller = none ∧
    (step (boot (.yield 3 Prog.ret) 10)).status = .aborted ∧
    (step (boot (.yield 3 Prog.ret) 10)).current = leader :=
  have h := yield_without_caller_aborts (boot (.yield 3 Prog.ret) 10) 3 Prog.ret rfl rfl rfl
  ⟨rfl, rfl, h.1, h.2.1⟩

/-- C5 fails on `handOver`: coroutine `1` was started by coroutine `2` and last
resumed by the leader (its `caller` field names the leader while it runs on
fiber `1`), yet when its entry returns the trampoline switches to fiber `2`, the
fiber of coroutine `2`, and not to the leader's fiber `0`; coroutine `2` then
runs while `current` still names coroutine `1`. -/
theorem trampoline_switches_to_first_caller :
    (run 7 handOver).running = 1 ∧ ((run 7 handOver).mem 1).fiber = some 1 ∧
    ((run 7 handOver).mem 1).caller = some leader ∧
    (run 7 handOver).code = Prog.ret (9 + 1) ∧
    (run 7 handOver).base = some ⟨1, some 2⟩ ∧
    ((run 8 handOver).mem leader).fiber = some 0 ∧ ((run 8 handOver).mem 2).fiber = some 2 ∧
    (run 8 handOver).trace.getLast? = some (Event.switch 2) ∧
    (run 8 handOver).running = 2 ∧ (run 8 handOver).status = .running ∧
    (run 8 handOver).current = 1 :=
  ⟨by decide, by decide, by decide, rfl, by decide, by decide, by decide, by decide, by decide,
    by decide, by decide⟩

/-- C6 fails on `staleExit`: coroutine `1` is suspended in `coroutine_yield`
towards coroutine `2`, which has exited since; the leader resumes it with
`coroutine_yieldto(1, 42)` and the yield returns 99, the exit value of
coroutine `2`, instead of 42. -/
theorem yield_returns_data_of_exited_caller :
    (run 6 staleExit).code = (Prog.yieldto 1 42 fun r => Prog.ret r) ∧
    (run 6 staleExit).running = 0 ∧ ((run 6 staleExit).mem 2).ret = 1 ∧
    ((run 6 staleExit).mem 1).caller = none ∧ ((run 6 staleExit).mem 1).exited = 0 ∧
    (run 7 staleExit).running = 1 ∧ (run 7 staleExit).status = .running ∧
    (run 7 staleExit).code = Prog.ret 99 ∧
    (run 7 staleExit).retval = 99 ∧ ((run 7 staleExit).mem 1).data = 42 :=
  ⟨rfl, by decide, by decide, by decide, by decide, by decide, by decide, rfl, by decide,
    by decide⟩

/-- C7 fails on `staleExit`: `coroutine_release` is called on coroutine `2` once
by the leader, which observes the exit, and a second time by coroutine `1` when
it wakes up from its yield to coroutine `2`. -/
theorem release_called_twice :
    (run 6 staleExit).trace.count (Event.release 2) = 1 ∧
    (run 7 staleExit).running = 1 ∧
    (run 7 staleExit).trace.count (Event.release 2) = 2 ∧
    (run 7 staleExit).trace.count (Event.delete (some 2)) = 2 := by
  decide

/-- C8 fails on `crossResume`: the leader's `coroutine_yieldto(2, 0)` returns to
the leader, which runs again on the thread's fiber, while `coroutine_self()` is
coroutine `1` and not the leader. -/
theorem self_wrong_after_yieldto_returns :
    (run 4 crossResume).code = (Prog.yieldto 2 0 fun _ => Prog.yieldto 1 5 fun r => Prog.ret r) ∧
    (run 4 crossResume).running = threadFiber ∧ coroutine_self (run 4 crossResume) = leader ∧
    (run 7 crossResume).code = (Prog.yieldto 1 5 fun r => Prog.ret r) ∧
    (run 7 crossResume).running = threadFiber ∧ (run 7 crossResume).status = .running ∧
    coroutine_self (run 7 crossResume) = 1 ∧ coroutine_self (run 7 crossResume) ≠ leader :=
  ⟨rfl, by decide, by decide, rfl, by decide, by decide, by decide, by decide⟩

/-- C9 fails on `crossResume`: the entry of coroutine `1` has returned (the
trace holds its `leave` event) but its `exited` flag is still 0, so the leader's
next `coroutine_yieldto(1, 5)` passes both checks and calls `SwitchToFiber` on
fiber `1`, the fiber of coroutine `1`. -/
theorem switch_into_returned_coroutine :
    Event.leave 1 2 ∈ (run 7 crossResume).trace ∧
    ((run 7 crossResume).mem 1).exited = 0 ∧ ((run 7 crossResume).mem 1).caller = none ∧
    ((run 7 crossResume).mem 1).fiber = some 1 ∧
    (run 7 crossResume).code = (Prog.yieldto 1 5 fun r => Prog.ret r) ∧
    (run 8 crossResume).trace = (run 7 crossResume).trace ++ [Event.switch 1] ∧
    (run 8 crossResume).running = 1 ∧ (run 8 crossResume).status = .threadExit :=
  ⟨by decide, by decide, by decide, by decide, rfl, by decide, by decide, by decide⟩

/-- C10 as stated fails: when `coroutine_yieldto(1, 5)` of the round trip
returns because the target yielded, it returns 10 while `target.data` is 5. -/
theorem yieldto_value_differs_from_target_data :
    (run 2 roundTripStart).code = (Prog.yieldto 1 100 fun r2 => Prog.ret (10 * 1000 + r2)) ∧
    ((run 2 roundTripStart).mem 1).exited = 0 ∧
    (run 2 roundTripStart).retval = 10 ∧ ((run 2 roundTripStart).mem 1).data = 5 ∧
    ¬ ((run 2 roundTripStart).retval = ((run 2 roundTripStart).mem 1).data) :=
  ⟨rfl, by decide, by decide, by decide, by decide⟩

/-- C10 (amended): let coroutine `k0` be suspended in `coroutine_yieldto(c, _)`
while `c` runs on its own fiber.  If `c` yields `arg`, the pending call returns
`arg`, which is the value of the caller's own slot `k0.data` at that moment,
and `c.data` is unchanged; if the entry of `c` returns `v` (to the caller `k0`
its trampoline recorded), the pending call returns `v`, which is `c.data` at
that moment, and `c.exited` is 1. -/
theorem yieldto_return_value (m : Machine) (c k0 : CoPtr) (f : FiberId) (kk : Val → Prog)
    (b0 : Option Tramp)
    (hst : m.status = .running) (hne : c ≠ k0)
    (hfib : (m.mem k0).fiber = some f) (hf : f ≠ m.running)
    (hown : (m.mem c).fiber = some m.running)
    (hctx : m.fibers f = some (.inSwap k0 c kk b0)) :
    (∀ arg k, m.code = .yield arg k → m.current = c → (m.mem c).caller = some k0 →
        (m.mem c).ret = 0 →
      (step m).code = kk arg ∧ (step m).retval = arg ∧ (step m).running = f ∧
      (step m).retval = ((step m).mem k0).data ∧ ((step m).mem c).data = (m.mem c).data ∧
      ((step m).mem c).exited = (m.mem c).exited) ∧
    (∀ v, m.code = .ret v → m.base = some ⟨c, some k0⟩ →
      (step m).code = kk v ∧ (step m).retval = v ∧ (step m).running = f ∧
      (step m).retval = ((step m).mem c).data ∧ ((step m).mem c).exited = 1) := by
  obtain ⟨mem, current, fibers, running, code, base, status, retval, next, quota, trace⟩ := m
  simp only at hst hne hfib hf hown hctx
  subst hst
  have hne' : k0 ≠ c := fun h => hne h.symm
  have hf' : running ≠ f := fun h => hf h.symm
  constructor
  · intro arg k hcode hcur hcaller hret
    simp only at hcode hcur hcaller hret
    subst hcode hcur
    simp [step, coroutine_swap, coroutine_self, SwitchToFiber, coroutine_yield,
      coroutine_swap_resume, Machine.log, Machine.resume, Machine.stop, setCo, setFiber,
      hne, hne', hf, hf', hfib, hown, hctx, hcaller, hret]
  · intro v hcode hbase
    simp only at hcode hbase
    subst hcode hbase
    simp [step, coroutine_swap, coroutine_self, SwitchToFiber,
      coroutine_swap_resume, coroutine_trampoline_return, coroutine_release, DeleteFiber,
      Machine.log, Machine.resume, Machine.stop, setCo, setFiber,
      hne, hne', hf, hf', hfib, hown, hctx]

/-- Both return paths in the round trip: coroutine `1` yields 10 to the leader,
and later its entry returns 101. -/
theorem yieldto_return_value_witness :
    ((step (run 1 roundTripStart)).retval = 10 ∧
      (step (run 1 roundTripStart)).retval = ((step (run 1 roundTripStart)).mem leader).data ∧
      ((step (run 1 roundTripStart)).mem 1).data = ((run 1 roundTripStart).mem 1).data) ∧
    ((step (run 3 roundTripStart)).retval = 100 + 1 ∧
      (step (run 3 roundTripStart)).retval = ((step (run 3 roundTripStart)).mem 1).data ∧
      ((step (run 3 roundTripStart)).mem 1).exited = 1) :=
  have h1 := (yieldto_return_value (run 1 roundTripStart) 1 leader 0
    (fun r => .yieldto 1 100 fun r2 => .ret (r * 1000 + r2)) none
    (by decide) (by decide) (by decide) (by decide) (by decide) rfl).1
    10 (fun y => .ret (y + 1)) rfl (by decide) (by decide) (by decide)
  have h2 := (yieldto_return_value (run 3 roundTripStart) 1 leader 0
    (fun r2 => .ret (10 * 1000 + r2)) none
    (by decide) (by decide) (by decide) (by decide) (by decide) rfl).2
    (100 + 1) rfl rfl
  ⟨⟨h1.2.1, h1.2.2.2.1, h1.2.2.2.2.1⟩, ⟨h2.2.1, h2.2.2.2.1, h2.2.2.2.2⟩⟩

/-- C12: `coroutine_is_main(co)` is true exactly for the leader object; it is
true for `coroutine_self()` at start, whatever the main code and the system's
limits, and false for every other object, in whatever state the process is. -/
theorem is_main_iff_leader :
    (∀ co : CoPtr, coroutine_is_main co = true ↔ co = leader) ∧
    (∀ main quota, coroutine_is_main (coroutine_self (boot main quota)) = true) ∧
    (∀ (_m : Machine) (co : CoPtr), co ≠ leader → coroutine_is_main co = false) := by
  refine ⟨?_, ?_, ?_⟩
  · intro co
    simp [coroutine_is_main]
  · intro main quota
    simp [coroutine_is_main, coroutine_self, boot]
  · intro _ co h
    simp [coroutine_is_main, h]

/-- Coroutine object `1` of the round trip is not the leader. -/
theorem is_main_iff_leader_witness :
    (1 : CoPtr) ≠ leader ∧ coroutine_is_main 1 = false ∧
    coroutine_is_main (coroutine_self (boot (Prog.ret 0) 10)) = true :=
  ⟨by decide, is_main_iff_leader.2.2 roundTripStart 1 (by decide),
    is_main_iff_leader.2.1 (Prog.ret 0) 10⟩

/-- C16: let `c` be the current coroutine, running on a fiber of its own, with
recorded caller `k0`, and let `k0` be suspended in its `coroutine_yieldto(c, _)`.
Then `coroutine_yield(arg)` stores `arg` (in `k0.data`), clears `c.caller`, makes
`k0` current and switches to the fiber of `k0`, whose pending call returns `arg`
while `c.exited` is still 0; `c` stays suspended in its yield. -/
theorem yield_hands_back (m : Machine) (c k0 : CoPtr) (f : FiberId) (arg : Val)
    (k kk : Val → Prog) (b0 : Option Tramp)
    (hst : m.status = .running) (hcode : m.code = .yield arg k)
    (hcur : m.current = c) (hcaller : (m.mem c).caller = some k0) (hne : c ≠ k0)
    (hret : (m.mem c).ret = 0) (hex : (m.mem c).exited = 0)
    (hfib : (m.mem k0).fiber = some f) (hf : f ≠ m.running)
    (hctx : m.fibers f = some (.inSwap k0 c kk b0)) :
    ((step m).mem k0).data = arg ∧ ((step m).mem c).caller = none ∧
    (step m).current = k0 ∧ (step m).running = f ∧
    (step m).trace = m.trace ++ [Event.switch f] ∧
    (step m).code = kk arg ∧ (step m).retval = arg ∧ (step m).base = b0 ∧
    ((step m).mem c).exited = 0 ∧ (step m).status = .running ∧
    (step m).fibers m.running = some (.inSwap c k0 k m.base) := by
  obtain ⟨mem, current, fibers, running, code, base, status, retval, next, quota, trace⟩ := m
  simp only at hst hcode hcur hcaller hret hex hfib hf hctx
  have hne' : k0 ≠ c := fun h => hne h.symm
  have hf' : running ≠ f := fun h => hf h.symm
  subst hst hcode hcur
  simp [step, coroutine_swap, coroutine_self, SwitchToFiber, coroutine_yield,
    coroutine_swap_resume, Machine.log, Machine.resume, Machine.stop, setCo, setFiber,
    hne, hne', hf, hf', hfib, hctx, hcaller, hret, hex]

/-- The yield of 10 in the round trip. -/
theorem yield_hands_back_witness :
    ((run 1 roundTripStart).current = 1 ∧ ((run 1 roundTripStart).mem 1).caller = some leader) ∧
    ((step (run 1 roundTripStart)).mem leader).data = 10 ∧
    ((step (run 1 roundTripStart)).mem 1).caller = none ∧
    (step (run 1 roundTripStart)).current = leader ∧
    (step (run 1 roundTripStart)).retval = 10 ∧
    ((step (run 1 roundTripStart)).mem 1).exited = 0 :=
  have h := yield_hands_back (run 1 roundTripStart) 1 leader 0 10
    (fun y => .ret (y + 1)) (fun r => .yieldto 1 100 fun r2 => .ret (r * 1000 + r2)) none
    (by decide) rfl (by decide) (by decide) (by decide) (by decide) (by decide) (by decide)
    (by decide) rfl
  ⟨⟨by decide, by decide⟩, h.1, h.2.1, h.2.2.1, h.2.2.2.2.2.2.1, h.2.2.2.2.2.2.2.2.1⟩

/-- The function `coroutine_init` writes no `caller` field. -/
theorem init_keeps_caller (m : Machine) (co : CoPtr) (k : Prog) (c : CoPtr) :
    ((coroutine_init m co k).mem c).caller = (m.mem c).caller := by
  obtain ⟨mem, current, fibers, running, code, base, status, retval, next, quota, trace⟩ := m
  rcases quota with _ | _ | q <;>
    by_cases hl : (mem leader).fiber = none <;>
    by_cases hs : status = .running <;>
    simp [coroutine_init, coroutine_init_leader, ConvertThreadToFiber, CreateFiber, g_error,
      Machine.log, Machine.stop, setCo, hl, hs] <;>
    (repeat' split) <;> simp_all

/-- C18 as stated fails: the object of `staleCaller` holds a non-NULL `caller`
before `coroutine_init`, still holds it after `coroutine_init` has returned,
and the first `coroutine_yieldto` on it is rejected by the caller check: it
returns `NULL` and no fiber is switched to. -/
theorem init_keeps_stale_caller :
    (staleCaller.mem 1).caller = some 7 ∧
    (run 1 staleCaller).status = .running ∧
    (run 1 staleCaller).code = (Prog.yieldto 1 5 fun r => Prog.ret r) ∧
    ¬ (((run 1 staleCaller).mem 1).caller = none) ∧
    (run 2 staleCaller).trace = [Event.critical] ∧ (run 2 staleCaller).retval = 0 :=
  ⟨by decide, by decide, rfl, by decide, by decide, by decide⟩

/-- C18 (amended): `coroutine_init(co)` leaves the `caller` field of every
coroutine object as it was.  So if `co.caller` was absent before the call and
the native calls succeed, `coroutine_init` returns with `co.caller` absent and
`co.exited` 0, and `coroutine_yieldto(co, arg)` then passes both checks: it
switches to the new fiber of `co` and the entry procedure is called with `arg`. -/
theorem init_preserves_caller (m : Machine) (co : CoPtr) (k : Prog) :
    (∀ c, ((coroutine_init m co k).mem c).caller = (m.mem c).caller) ∧
    (∀ e arg kk, m.status = .running → (m.mem co).caller = none →
      (m.mem co).entry = some e → co ≠ leader → 2 ≤ m.quota → m.next ≠ m.running →
      (coroutine_init m co k).status = .running ∧ (coroutine_init m co k).code = k ∧
      ((coroutine_init m co k).mem co).caller = none ∧
      ((coroutine_init m co k).mem co).exited = 0 ∧
      (coroutine_yieldto (coroutine_init m co k) co arg kk).trace =
        m.trace ++ [Event.switch m.next, Event.enter co arg] ∧
      (coroutine_yieldto (coroutine_init m co k) co arg kk).code = e arg ∧
      (coroutine_yieldto (coroutine_init m co k) co arg kk).status = .running) := by
  constructor
  · intro c
    exact init_keeps_caller m co k c
  · obtain ⟨mem, current, fibers, running, code, base, status, retval, next, quota, trace⟩ := m
    intro e arg kk hst hc he hne hq hn
    simp only at hst hc he hq hn
    subst hst
    obtain ⟨q, rfl⟩ : ∃ q, quota = q + 2 := ⟨quota - 2, by omega⟩
    have hne' : leader ≠ co := fun h => hne h.symm
    have hn' : running ≠ next := fun h => hn h.symm
    by_cases hl : (mem leader).fiber = none <;>
      simp [coroutine_init, coroutine_init_leader, ConvertThreadToFiber, CreateFiber, g_error,
        coroutine_yieldto, coroutine_swap, coroutine_self, SwitchToFiber, coroutine_trampoline,
        Machine.log, Machine.resume, Machine.stop, setCo, setFiber, hl, hc, he, hne, hne', hn, hn']

/-- The first resume of the round trip, whose object was zero-filled. -/
theorem init_preserves_caller_witness :
    (((boot (.init 1 roundTripEntry (.ret 0)) 10).mem 1).caller = none ∧
      2 ≤ (boot (.init 1 roundTripEntry (.ret 0)) 10).quota) ∧
    ((coroutine_init (boot (.init 1 roundTripEntry (.ret 0)) 10) 1 (.ret 0)).mem 1).caller = none ∧
    (coroutine_init { boot (.ret 0) 10 with
        mem := fun p => if p = 1 then { entry := some roundTripEntry } else {} } 1
      (.ret 0)).status = .running :=
  have h1 := (init_preserves_caller (boot (.init 1 roundTripEntry (.ret 0)) 10) 1 (.ret 0)).1 1
  have h2 := (init_preserves_caller { boot (.ret 0) 10 with
      mem := fun p => if p = 1 then { entry := some roundTripEntry } else {} } 1 (.ret 0)).2
    roundTripEntry 5 Prog.ret rfl rfl rfl (by decide) (by decide) (by decide)
  ⟨⟨rfl, by decide⟩, h1, h2.1⟩

/-- The release of a coroutine writes no coroutine object. -/
theorem release_mem (m : Machine) (co : CoPtr) : (coroutine_release m co).mem = m.mem := by
  unfold coroutine_release DeleteFiber
  simp only [Machine.log, Machine.stop]
  repeat' split
  all_goals rfl

/-- Entering the trampoline writes no coroutine object. -/
theorem trampoline_mem (m : Machine) (p : CoPtr) : (coroutine_trampoline m p).mem = m.mem := by
  unfold coroutine_trampoline
  simp only [Machine.log, Machine.stop]
  split <;> rfl

/-- Waking up in `coroutine_swap` keeps a coroutine exited. -/
theorem swap_resume_keeps_exited (m : Machine) (src dst : CoPtr) (k : Val → Prog) (c : CoPtr)
    (he : (m.mem c).exited = 1) (hr : (m.mem c).ret = 1) :
    ((coroutine_swap_resume m src dst k).mem c).exited = 1 ∧
    ((coroutine_swap_resume m src dst k).mem c).ret = 1 := by
  unfold coroutine_swap_resume
  simp only [Machine.resume]
  repeat' split
  all_goals try exact ⟨he, hr⟩
  · rw [release_mem]
    exact ⟨he, hr⟩
  · simp only [setCo, release_mem]
    by_cases h : c = dst
    · subst h
      simp [hr]
    · simp [h, he, hr]

/-- A native switch keeps a coroutine exited. -/
theorem switch_keeps_exited (m : Machine) (lp : Option FiberId) (here : Ctx) (c : CoPtr)
    (he : (m.mem c).exited = 1) (hr : (m.mem c).ret = 1) :
    ((SwitchToFiber m lp here).mem c).exited = 1 ∧ ((SwitchToFiber m lp here).mem c).ret = 1 := by
  unfold SwitchToFiber
  simp only [Machine.log, Machine.stop]
  repeat' split
  all_goals first
    | exact ⟨he, hr⟩
    | (rw [trampoline_mem]; exact ⟨he, hr⟩)
    | exact swap_resume_keeps_exited _ _ _ _ c he hr

/-- The function `coroutine_init` on another object keeps a coroutine exited. -/
theorem init_keeps_exited (m : Machine) (co : CoPtr) (k : Prog) (c : CoPtr) (hne : co ≠ c)
    (he : (m.mem c).exited = 1) (hr : (m.mem c).ret = 1) :
    ((coroutine_init m co k).mem c).exited = 1 ∧ ((coroutine_init m co k).mem c).ret = 1 := by
  obtain ⟨mem, current, fibers, running, code, base, status, retval, next, quota, trace⟩ := m
  simp only at he hr
  have hne' : c ≠ co := fun h => hne h.symm
  by_cases hc : c = leader
  · subst hc
    rcases quota with _ | _ | q <;>
      by_cases hl : (mem leader).fiber = none <;>
      by_cases hs : status = .running <;>
      simp [coroutine_init, coroutine_init_leader, ConvertThreadToFiber, CreateFiber, g_error,
        Machine.log, Machine.stop, setCo, hl, hs, hne, hne', he, hr]
  · rcases quota with _ | _ | q <;>
      by_cases hl : (mem leader).fiber = none <;>
      by_cases hs : status = .running <;>
      simp [coroutine_init, coroutine_init_leader, ConvertThreadToFiber, CreateFiber, g_error,
        Machine.log, Machine.stop, setCo, hl, hs, hne, hne', he, hr, hc]

/-- A stopped process makes no step. -/
theorem step_of_stopped (m : Machine) (h : m.status ≠ .running) : step m = m := by
  unfold step
  split
  · rename_i heq
    exact absurd heq h
  · rfl

/-- One API call other than `coroutine_init(c)` keeps `c` exited. -/
theorem step_keeps_exited (m : Machine) (c : CoPtr) (hi : initialises c m.code = false)
    (he : (m.mem c).exited = 1) (hr : (m.mem c).ret = 1) :
    ((step m).mem c).exited = 1 ∧ ((step m).mem c).ret = 1 := by
  by_cases hst : m.status = .running
  swap
  · rw [step_of_stopped m hst]
    exact ⟨he, hr⟩
  obtain ⟨mem, current, fibers, running, code, base, status, retval, next, quota, trace⟩ := m
  simp only at hi he hr hst
  subst hst
  cases code with
  | ret v =>
    cases base with
    | none => simpa [step, Machine.stop] using ⟨he, hr⟩
    | some t =>
      simp only [step, coroutine_trampoline_return, Machine.log, Machine.stop]
      split
      · by_cases h : c = t.co
        · subst h
          simp [setCo, he]
        · simp [setCo, h, he, hr]
      · apply switch_keeps_exited
        · by_cases h : c = t.co
          · subst h
            simp [setCo, he]
          · simp [setCo, h, he]
        · by_cases h : c = t.co <;> simp [setCo, h, hr]
  | yield arg k =>
    simp only [step, coroutine_yield, coroutine_self, Machine.log, Machine.stop]
    split
    · exact ⟨he, hr⟩
    · simp only [coroutine_swap]
      apply switch_keeps_exited <;> simp only [setCo] <;> (repeat' split) <;> simp_all
  | yieldto dst arg k =>
    simp only [step, coroutine_yieldto, coroutine_self, Machine.log, Machine.resume]
    repeat' split
    · exact ⟨he, hr⟩
    · exact ⟨he, hr⟩
    · simp only [coroutine_swap]
      apply switch_keeps_exited <;> simp only [setCo] <;> (repeat' split) <;> simp_all
  | self k => simpa [step] using ⟨he, hr⟩
  | init co entry k =>
    have hne : co ≠ c := by
      intro h
      simp [initialises, h] at hi
    have hne' : c ≠ co := fun h => hne h.symm
    simp only [step]
    apply init_keeps_exited _ _ _ _ hne <;> simp [setCo, hne', he, hr]
  | release co k =>
    simp only [step]
    split
    · rw [release_mem]
      exact ⟨he, hr⟩
    · simp only [release_mem]
      exact ⟨he, hr⟩

/-- Any number of API calls none of which is `coroutine_init(c)` keeps `c`
exited. -/
theorem run_keeps_exited (c : CoPtr) (n : Nat) (m : Machine)
    (hi : ∀ i, i < n → initialises c (run i m).code = false)
    (he : (m.mem c).exited = 1) (hr : (m.mem c).ret = 1) :
    ((run n m).mem c).exited = 1 ∧ ((run n m).mem c).ret = 1 := by
  induction n generalizing m with
  | zero => exact ⟨he, hr⟩
  | succ n ih =>
    have h0 := hi 0 (Nat.succ_pos n)
    have hs := step_keeps_exited m c h0 he hr
    simp only [run]
    apply ih (step m) _ hs.1 hs.2
    intro i hlt
    exact hi (i + 1) (Nat.succ_lt_succ hlt)

/-- C20: the exit branch of `coroutine_swap` sets `exited` to 1 only on a
coroutine whose `ret` is 1; from a state in which coroutine `c` has `exited`
and `ret` both 1, any number of API calls of any contexts, none of them
`coroutine_init(c)`, leaves both at 1; and a `coroutine_init(c)` that returns
sets both to 0. -/
theorem exited_is_terminal (c : CoPtr) :
    (∀ (m : Machine) src k, (m.mem c).ret = 1 →
      (coroutine_swap_resume m src c k).status = .running →
      ((coroutine_swap_resume m src c k).mem c).exited = 1 ∧
      ((coroutine_swap_resume m src c k).mem c).ret = 1) ∧
    (∀ (m : Machine) src dst k, ((coroutine_swap_resume m src dst k).mem c).exited ≠
        (m.mem c).exited → (m.mem c).ret = 1) ∧
    (∀ (m : Machine) (n : Nat), (m.mem c).exited = 1 → (m.mem c).ret = 1 →
      (∀ i, i < n → initialises c (run i m).code = false) →
      ((run n m).mem c).exited = 1 ∧ ((run n m).mem c).ret = 1) ∧
    (∀ (m : Machine) k, (coroutine_init m c k).status = .running →
      ((coroutine_init m c k).mem c).exited = 0 ∧ ((coroutine_init m c k).mem c).ret = 0) := by
  refine ⟨?_, ?_, ?_, ?_⟩
  · intro m src k hr
    unfold coroutine_swap_resume
    simp only [Machine.resume, hr]
    simp only [one_ne_zero, if_false, if_true]
    split
    · intro h
      rename_i h'
      exact absurd h h'
    · intro _
      simp [setCo]
      rw [release_mem]
      exact hr
  · intro m src dst k
    unfold coroutine_swap_resume
    simp only [Machine.resume]
    repeat' split
    all_goals try (intro h; exact absurd rfl h)
    · rw [release_mem]
      intro h
      exact absurd rfl h
    · simp only [setCo, release_mem]
      split
      · rename_i h1 h2 h3
        intro _
        rw [h3]
        assumption
      · intro h
        exact absurd rfl h
  · intro m n he hr hi
    exact run_keeps_exited c n m hi he hr
  · intro m k
    obtain ⟨mem, current, fibers, running, code, base, status, retval, next, quota, trace⟩ := m
    rcases quota with _ | _ | q <;>
      by_cases hl : (mem leader).fiber = none <;>
      by_cases hs : status = .running <;>
      by_cases hc : c = leader <;>
      simp [coroutine_init, coroutine_init_leader, ConvertThreadToFiber, CreateFiber, g_error,
        Machine.log, Machine.stop, setCo, hl, hs, hc]

/-- Coroutine `2` of `staleExit`, exited after six calls, through two more
calls (a resume of coroutine `1` and the return of its entry). -/
theorem exited_is_terminal_witness :
    (((run 6 staleExit).mem 2).exited = 1 ∧ ((run 6 staleExit).mem 2).ret = 1 ∧
      ∀ i, i < 2 → initialises 2 (run i (run 6 staleExit)).code = false) ∧
    ((run 2 (run 6 staleExit)).mem 2).exited = 1 ∧
    ((run 2 (run 6 staleExit)).mem 2).ret = 1 :=
  have h := (exited_is_terminal 2).2.2.1 (run 6 staleExit) 2 (by decide) (by decide)
    (by decide)
  ⟨⟨by decide, by decide, by decide⟩, h.1, h.2⟩

/-- Running `a + b` calls is running `a` calls and then `b` calls. -/
theorem run_add (a b : Nat) (m : Machine) : run (a + b) m = run b (run a m) := by
  induction a generalizing m with
  | zero => simp [run]
  | succ a ih =>
    rw [Nat.succ_add]
    simp only [run]
    exact ih (step m)

/-- One hop of the ping-pong while the receiving side is suspended in a yield:
the resume hands `x` to the yield, and the next yield hands `y` to the resume. -/
theorem pingpong_hop (m : Machine) (a b : CoPtr) (f : FiberId) (x y : Val) (xs ys gotA gotB : List Val)
    (k : List Val → Prog) (fin : List Val → Val → Prog) (t : Option Tramp)
    (hr : pingPongReady m a b f)
    (hcode : m.code = ping b (x :: xs) gotA k)
    (hctx : m.fibers f = some (.inSwap b a (pong (y :: ys) gotB fin) t)) :
    pingPongReady (run 2 m) a b f ∧ (run 2 m).running = m.running ∧
    (run 2 m).code = ping b xs (gotA ++ [y]) k ∧
    (run 2 m).fibers f = some (.inSwap b a (pong ys (gotB ++ [x]) fin) t) ∧
    (run 1 m).retval = x ∧ (run 2 m).retval = y := by
  obtain ⟨hst, hcur, hne, hfa, hra, hrb, heb, hcb, hfb, hf⟩ := hr
  obtain ⟨mem, current, fibers, running, code, base, status, retval, next, quota, trace⟩ := m
  simp only at hst hcur hfa hra hrb heb hcb hfb hf hcode hctx
  have hne' : a ≠ b := fun h => hne h.symm
  have hf' : running ≠ f := fun h => hf h.symm
  subst hst hcur hcode
  simp [pingPongReady, run, step, ping, pong, coroutine_yieldto, coroutine_swap, coroutine_self,
    SwitchToFiber, coroutine_yield, coroutine_swap_resume, Machine.log, Machine.resume,
    Machine.stop, setCo, setFiber, hne, hne', hf, hf', hfa, hra, hrb, heb, hcb, hfb, hctx]

/-- The first hop of the ping-pong: the resume starts the receiving side, whose
entry is called with `x`, and its first yield hands `y` to the resume. -/
theorem pingpong_first_hop (m : Machine) (a b : CoPtr) (f : FiberId) (x y : Val)
    (xs ys : List Val) (k : List Val → Prog) (fin : List Val → Val → Prog)
    (hr : pingPongReady m a b f)
    (hentry : (m.mem b).entry = some (pong (y :: ys) [] fin))
    (hcode : m.code = ping b (x :: xs) [] k)
    (hctx : m.fibers f = some (.created b)) :
    pingPongReady (run 2 m) a b f ∧ (run 2 m).running = m.running ∧
    (run 2 m).code = ping b xs [y] k ∧
    (run 2 m).fibers f = some (.inSwap b a (pong ys [x] fin) (some ⟨b, some a⟩)) ∧
    (run 1 m).trace = m.trace ++ [Event.switch f, Event.enter b x] ∧ (run 2 m).retval = y := by
  obtain ⟨hst, hcur, hne, hfa, hra, hrb, heb, hcb, hfb, hf⟩ := hr
  obtain ⟨mem, current, fibers, running, code, base, status, retval, next, quota, trace⟩ := m
  simp only at hst hcur hfa hra hrb heb hcb hfb hf hcode hctx hentry
  have hne' : a ≠ b := fun h => hne h.symm
  have hf' : running ≠ f := fun h => hf h.symm
  subst hst hcur hcode
  simp [pingPongReady, run, step, ping, pong, coroutine_yieldto, coroutine_swap, coroutine_self,
    SwitchToFiber, coroutine_yield, coroutine_swap_resume, coroutine_trampoline, Machine.log,
    Machine.resume, Machine.stop, setCo, setFiber, hne, hne', hf, hf', hfa, hra, hrb, heb, hcb,
    hfb, hctx, hentry]
/-- The hops of the ping-pong after the first: the sending side ends up with
the values the other side sent, in order, the other side with the values sent
to it, and every call returns the value passed on its own hop. -/
theorem pingpong_hops (a b : CoPtr) (f : FiberId) (k : List Val → Prog)
    (fin : List Val → Val → Prog) (t : Option Tramp) (xs : List Val) :
    ∀ (ys gotA gotB : List Val) (m : Machine), xs.length = ys.length →
      pingPongReady m a b f → m.code = ping b xs gotA k →
      m.fibers f = some (.inSwap b a (pong ys gotB fin) t) →
      pingPongReady (run (2 * xs.length) m) a b f ∧
      (run (2 * xs.length) m).code = k (gotA ++ ys) ∧
      (run (2 * xs.length) m).fibers f = some (.inSwap b a (pong [] (gotB ++ xs) fin) t) ∧
      (∀ i, i < xs.length → xs[i]? = some (run (2 * i + 1) m).retval) ∧
      (∀ i, i < xs.length → ys[i]? = some (run (2 * i + 2) m).retval) := by
  induction xs with
  | nil =>
    intro ys gotA gotB m hlen hr hcode hctx
    have hys : ys = [] := List.length_eq_zero.mp hlen.symm
    subst hys
    refine ⟨by simpa [run] using hr, by simpa [run, ping] using hcode,
      by simpa [run] using hctx, ?_, ?_⟩ <;> intro i hi <;> simp at hi
  | cons x xs ih =>
    intro ys gotA gotB m hlen hr hcode hctx
    cases ys with
    | nil => simp at hlen
    | cons y ys =>
      have hlen' : xs.length = ys.length := by simpa using hlen
      have hop := pingpong_hop m a b f x y xs ys gotA gotB k fin t hr hcode hctx
      have h := ih ys (gotA ++ [y]) (gotB ++ [x]) (run 2 m) hlen' hop.1 hop.2.2.1 hop.2.2.2.1
      have hrun : ∀ j, run (2 * (j + 1)) m = run (2 * j) (run 2 m) := by
        intro j
        rw [show 2 * (j + 1) = 2 + 2 * j by ring, run_add]
      have hrun1 : ∀ j, run (2 * (j + 1) + 1) m = run (2 * j + 1) (run 2 m) := by
        intro j
        rw [show 2 * (j + 1) + 1 = 2 + (2 * j + 1) by ring, run_add]
      have hrun2 : ∀ j, run (2 * (j + 1) + 2) m = run (2 * j + 2) (run 2 m) := by
        intro j
        rw [show 2 * (j + 1) + 2 = 2 + (2 * j + 2) by ring, run_add]
      simp only [List.length_cons, hrun]
      refine ⟨h.1, ?_, ?_, ?_, ?_⟩
      · simpa using h.2.1
      · simpa using h.2.2.1
      · intro i hi
        cases i with
        | zero => simpa using hop.2.2.2.2.1.symm
        | succ j =>
          rw [hrun1]
          simpa using h.2.2.2.1 j (by omega)
      · intro i hi
        cases i with
        | zero => simpa using hop.2.2.2.2.2.symm
        | succ j =>
          rw [hrun2]
          simpa using h.2.2.2.2 j (by omega)

/-- C11: let coroutine `a` be current, on a fiber of its own, and `b` freshly
initialised with the receiving side as entry.  When `a` sends the `N` values
`xs` with `coroutine_yieldto(b, _)` and `b` sends the `N` values `ys` back with
`coroutine_yield`, then after the `2N` calls `a` holds exactly `ys`, in order,
as the values its calls returned and `b` holds exactly `xs` as the values it
received; call by call, the yieldto of hop `i` returns `ys[i]`, the entry of `b`
is called with `xs[0]` and the yield resumed on hop `i > 0` returns `xs[i]`. -/
theorem pingpong_exact (m : Machine) (a b : CoPtr) (f : FiberId) (xs ys : List Val)
    (k : List Val → Prog) (fin : List Val → Val → Prog)
    (hr : pingPongReady m a b f) (hlen : xs.length = ys.length)
    (hentry : (m.mem b).entry = some (pong ys [] fin))
    (hcode : m.code = ping b xs [] k)
    (hctx : m.fibers f = some (.created b)) :
    (run (2 * xs.length) m).code = k ys ∧
    pingPongReady (run (2 * xs.length) m) a b f ∧
    (xs ≠ [] → (run (2 * xs.length) m).fibers f =
      some (.inSwap b a (pong [] xs fin) (some ⟨b, some a⟩))) ∧
    (∀ i, i < xs.length → ys[i]? = some (run (2 * i + 2) m).retval) ∧
    (∀ i, 0 < i → i < xs.length → xs[i]? = some (run (2 * i + 1) m).retval) ∧
    (∀ x, xs.head? = some x → (run 1 m).trace = m.trace ++ [Event.switch f, Event.enter b x]) := by
  cases xs with
  | nil =>
    have hys : ys = [] := List.length_eq_zero.mp hlen.symm
    subst hys
    refine ⟨by simpa [run, ping] using hcode, by simpa [run] using hr, ?_, ?_, ?_, ?_⟩
    · intro h
      exact absurd rfl h
    · intro i hi
      simp at hi
    · intro i _ hi
      simp at hi
    · intro x hx
      simp at hx
  | cons x xs =>
    cases ys with
    | nil => simp at hlen
    | cons y ys =>
      have hlen' : xs.length = ys.length := by simpa using hlen
      have hop := pingpong_first_hop m a b f x y xs ys k fin hr hentry hcode hctx
      have h := pingpong_hops a b f k fin (some ⟨b, some a⟩) xs ys [y] [x] (run 2 m) hlen'
        hop.1 hop.2.2.1 hop.2.2.2.1
      have hrun : run (2 * (xs.length + 1)) m = run (2 * xs.length) (run 2 m) := by
        rw [show 2 * (xs.length + 1) = 2 + 2 * xs.length by ring, run_add]
      have hrun1 : ∀ j, run (2 * (j + 1) + 1) m = run (2 * j + 1) (run 2 m) := by
        intro j
        rw [show 2 * (j + 1) + 1 = 2 + (2 * j + 1) by ring, run_add]
      have hrun2 : ∀ j, run (2 * (j + 1) + 2) m = run (2 * j + 2) (run 2 m) := by
        intro j
        rw [show 2 * (j + 1) + 2 = 2 + (2 * j + 2) by ring, run_add]
      simp only [List.length_cons, hrun]
      refine ⟨?_, h.1, ?_, ?_, ?_, ?_⟩
      · simpa using h.2.1
      · intro _
        simpa using h.2.2.1
      · intro i hi
        cases i with
        | zero => simpa using hop.2.2.2.2.2.symm
        | succ j =>
          rw [hrun2]
          simpa using h.2.2.2.2 j (by omega)
      · intro i hpos hi
        cases i with
        | zero => exact absurd hpos (Nat.lt_irrefl 0)
        | succ j =>
          rw [hrun1]
          simpa using h.2.2.2.1 j (by omega)
      · intro x' hx
        have : x = x' := by simpa using hx
        subst this
        exact hop.2.2.2.2.1

/-- Three hops between the leader and coroutine `1`: the leader sends 1, 2, 3
and receives 10, 20, 30. -/
theorem pingpong_exact_witness :
    (pingPongReady pingPongStart leader 1 1 ∧
      pingPongStart.fibers 1 = some (.created 1)) ∧
    (run (2 * [(1 : Val), 2, 3].length) pingPongStart).code =
      (fun got : List Val => Prog.ret got.sum) [10, 20, 30] ∧
    [(10 : Val), 20, 30][1]? = some (run (2 * 1 + 2) pingPongStart).retval ∧
    [(1 : Val), 2, 3][2]? = some (run (2 * 2 + 1) pingPongStart).retval :=
  have hr : pingPongReady pingPongStart leader 1 1 := by
    unfold pingPongReady
    decide
  have h := pingpong_exact pingPongStart leader 1 1 [1, 2, 3] [10, 20, 30]
    (fun got => Prog.ret got.sum) (fun _ x => Prog.ret x) hr rfl rfl rfl rfl
  ⟨⟨hr, rfl⟩, h.1, h.2.2.2.1 1 (by decide), h.2.2.2.2.1 2 (by decide) (by decide)⟩

/-- The values of the witness, evaluated: hop 1 returns 20 to the leader and
the yield resumed on hop 2 returns 3. -/
theorem pingpong_values :
    (run 4 pingPongStart).retval = 20 ∧ (run 5 pingPongStart).retval = 3 ∧
    (run 6 pingPongStart).retval = 30 ∧ (run 7 pingPongStart).status = .finished 60 := by
  decide

/-- C25: when `to.caller` is present or `to.exited` is set, the call
`coroutine_yieldto(to, arg)` returns `NULL` to the running code and leaves the
state as it was: every coroutine object (so `to.caller`, `to.data`, `to.exited`
and `to.ret`), `current`, the running fiber and all saved fibers are unchanged,
the process keeps running, and the trace gains the warning only, so that no
`SwitchToFiber` and no `coroutine_release` has been called. -/
theorem yieldto_rejected_state_unchanged (m : Machine) (dst : CoPtr) (arg : Val)
    (k : Val → Prog) (hst : m.status = .running) (hcode : m.code = .yieldto dst arg k)
    (h : (m.mem dst).caller ≠ none ∨ (m.mem dst).exited ≠ 0) :
    (step m).retval = 0 ∧ (step m).code = k 0 ∧ (step m).mem = m.mem ∧
    (step m).current = m.current ∧ (step m).running = m.running ∧
    (step m).fibers = m.fibers ∧ (step m).base = m.base ∧ (step m).status = .running ∧
    (step m).trace = m.trace ++ [Event.critical] ∧
    (∀ f, (step m).trace.count (Event.switch f) = m.trace.count (Event.switch f)) ∧
    (∀ co, (step m).trace.count (Event.release co) = m.trace.count (Event.release co)) := by
  have hs : step m = (m.log .critical).resume k 0 := by
    rcases h with h | h
    · simp [step, hst, hcode, coroutine_yieldto, h]
    · by_cases hc : (m.mem dst).caller = none <;> simp [step, hst, hcode, coroutine_yieldto, h, hc]
  rw [hs]
  simp [Machine.log, Machine.resume, hst, List.count_append, List.count_cons]

/-- A third resume of the exited coroutine of the round trip, and a resume of a
coroutine whose `caller` is set. -/
theorem yieldto_rejected_state_unchanged_witness :
    ((((run 4 roundTripStart).mem 1).exited ≠ 0) ∧
      (step { run 4 roundTripStart with code := Prog.yieldto 1 7 Prog.ret }).retval = 0 ∧
      (step { run 4 roundTripStart with code := Prog.yieldto 1 7 Prog.ret }).mem =
        (run 4 roundTripStart).mem) ∧
    (((staleCaller.mem 1).caller ≠ none) ∧
      (step { staleCaller with code := Prog.yieldto 1 7 Prog.ret }).current = leader) :=
  have h1 := yieldto_rejected_state_unchanged
    { run 4 roundTripStart with code := Prog.yieldto 1 7 Prog.ret } 1 7 Prog.ret
    (by decide) rfl (Or.inr (by decide))
  have h2 := yieldto_rejected_state_unchanged
    { staleCaller with code := Prog.yieldto 1 7 Prog.ret } 1 7 Prog.ret
    (by decide) rfl (Or.inl (by decide))
  ⟨⟨by decide, h1.1, h1.2.2.1⟩, ⟨by decide, h2.2.2.2.1⟩⟩

/-- One successful `coroutine_init` on an object other than the leader. -/
theorem init_step (m : Machine) (co : CoPtr) (e : Val → Prog) (k : Prog)
    (hst : m.status = .running) (hcode : m.code = .init co e k) (hne : co ≠ leader)
    (hq : ((m.mem leader).fiber ≠ none ∧ 1 ≤ m.quota) ∨ 2 ≤ m.quota) :
    (step m).status = .running ∧ (step m).code = k ∧ (step m).current = m.current ∧
    (step m).running = m.running ∧ (step m).trace = m.trace ∧
    ((step m).mem co).exited = 0 ∧ ((step m).mem co).ret = 0 ∧
    ((step m).mem leader).fiber ≠ none ∧
    ((m.mem leader).fiber ≠ none →
      (step m).mem leader = m.mem leader ∧ (step m).quota + 1 = m.quota) ∧
    ((m.mem leader).fiber = none →
      ((step m).mem leader).fiber = some m.running ∧ (step m).quota + 2 = m.quota) := by
  obtain ⟨mem, current, fibers, running, code, base, status, retval, next, quota, trace⟩ := m
  simp only at hst hcode hq
  subst hst hcode
  have hne' : leader ≠ co := fun h => hne h.symm
  by_cases hl : (mem leader).fiber = none
  · obtain ⟨q, rfl⟩ : ∃ q, quota = q + 2 := by
      rcases hq with ⟨h, _⟩ | h
      · exact absurd hl h
      · exact ⟨quota - 2, by omega⟩
    simp [step, coroutine_init, coroutine_init_leader, ConvertThreadToFiber, CreateFiber,
      g_error, Machine.log, Machine.stop, setCo, hl, hne, hne']
  · obtain ⟨q, rfl⟩ : ∃ q, quota = q + 1 := by
      rcases hq with ⟨_, h⟩ | h
      · exact ⟨quota - 1, by omega⟩
      · exact ⟨quota - 1, by omega⟩
    simp [step, coroutine_init, coroutine_init_leader, ConvertThreadToFiber, CreateFiber,
      g_error, Machine.log, Machine.stop, setCo, hl, hne, hne']
/-- A sequence of `coroutine_init` calls made when the leader already has its
fiber: every call succeeds, none touches the leader, `current`, the running
fiber or the trace, and each leaves its coroutine with `exited` and `ret` 0. -/
theorem init_sequence_later (cs : List (CoPtr × (Val → Prog))) :
    ∀ (m : Machine) (k : Prog), m.status = .running → m.code = initSeq cs k →
      (∀ c ∈ cs, c.1 ≠ leader) → (m.mem leader).fiber ≠ none → cs.length ≤ m.quota →
      (∀ i, i ≤ cs.length →
        (run i m).status = .running ∧ (run i m).code = initSeq (cs.drop i) k ∧
        (run i m).current = m.current ∧ (run i m).running = m.running ∧
        (run i m).trace = m.trace ∧ (run i m).mem leader = m.mem leader) ∧
      (∀ j c, cs[j]? = some c →
        ((run (j + 1) m).mem c.1).exited = 0 ∧ ((run (j + 1) m).mem c.1).ret = 0) := by
  induction cs with
  | nil =>
    intro m k hst hcode _ _ _
    constructor
    · intro i hi
      have : i = 0 := by simpa using hi
      subst this
      simp [run, hst, hcode]
    · intro j c h
      simp at h
  | cons c0 rest ih =>
    intro m k hst hcode hne hl hq
    have hc0 : c0.1 ≠ leader := hne c0 (List.mem_cons_self _ _)
    have hs := init_step m c0.1 c0.2 (initSeq rest k) hst (by simpa [initSeq] using hcode) hc0
      (Or.inl ⟨hl, by simp at hq; omega⟩)
    obtain ⟨s1, s2, s3, s4, s5, s6, s7, s8, s9, _⟩ := hs
    have s9' := s9 hl
    have hrest := ih (step m) k s1 s2 (fun c hc => hne c (List.mem_cons_of_mem _ hc)) s8
      (by simp at hq; omega)
    constructor
    · intro i hi
      cases i with
      | zero => simp [run, hst, hcode]
      | succ i =>
        have h := hrest.1 i (by simpa using hi)
        simp only [run, List.drop_succ_cons]
        exact ⟨h.1, h.2.1, h.2.2.1.trans s3, h.2.2.2.1.trans s4, h.2.2.2.2.1.trans s5,
          h.2.2.2.2.2.trans s9'.1⟩
    · intro j c h
      cases j with
      | zero =>
        have : c0 = c := by simpa using h
        subst this
        simpa [run] using ⟨s6, s7⟩
      | succ j =>
        have h' : rest[j]? = some c := by simpa using h
        simpa [run] using hrest.2 j c h'

/-- C21: let the running code be a sequence of `coroutine_init` calls on objects
other than the leader, with enough native resources for all of them to
succeed.  Then every call returns; the first call establishes the leader's
fiber if it has none (the handle of the running thread), and after it the
leader object never changes again; each call leaves the coroutine it
initialises with `exited` 0 and `ret` 0; and `current`, the running fiber and
the trace are the same after every call. -/
theorem init_sequence (cs : List (CoPtr × (Val → Prog))) (m : Machine) (k : Prog)
    (hst : m.status = .running) (hcode : m.code = initSeq cs k)
    (hne : ∀ c ∈ cs, c.1 ≠ leader)
    (hq : ((m.mem leader).fiber ≠ none ∧ cs.length ≤ m.quota) ∨ cs.length + 1 ≤ m.quota) :
    (run cs.length m).status = .running ∧ (run cs.length m).code = k ∧
    (∀ i, i ≤ cs.length →
      (run i m).status = .running ∧ (run i m).current = m.current ∧
      (run i m).running = m.running ∧ (run i m).trace = m.trace) ∧
    (∀ i, 1 ≤ i → i ≤ cs.length → (run i m).mem leader = (run 1 m).mem leader) ∧
    (1 ≤ cs.length → ((run 1 m).mem leader).fiber ≠ none ∧
      ((m.mem leader).fiber = none → ((run 1 m).mem leader).fiber = some m.running) ∧
      ((m.mem leader).fiber ≠ none → (run 1 m).mem leader = m.mem leader)) ∧
    (∀ j c, cs[j]? = some c →
      ((run (j + 1) m).mem c.1).exited = 0 ∧ ((run (j + 1) m).mem c.1).ret = 0) := by
  cases cs with
  | nil =>
    refine ⟨by simpa [run] using hst, by simpa [run, initSeq] using hcode, ?_, ?_, ?_, ?_⟩
    · intro i hi
      have : i = 0 := by simpa using hi
      subst this
      simp [run, hst]
    · intro i h1 hi
      simp at hi
      omega
    · intro h
      simp at h
    · intro j c h
      simp at h
  | cons c0 rest =>
    have hc0 : c0.1 ≠ leader := hne c0 (List.mem_cons_self _ _)
    have hs := init_step m c0.1 c0.2 (initSeq rest k) hst (by simpa [initSeq] using hcode) hc0
      (by
        rcases hq with ⟨h1, h2⟩ | h
        · exact Or.inl ⟨h1, by simp at h2; omega⟩
        · exact Or.inr (by simp at h; omega))
    obtain ⟨s1, s2, s3, s4, s5, s6, s7, s8, s9, s10⟩ := hs
    have hq' : rest.length ≤ (step m).quota := by
      by_cases hl : (m.mem leader).fiber = none
      · have := (s10 hl).2
        rcases hq with ⟨h1, _⟩ | h
        · exact absurd hl h1
        · simp at h
          omega
      · have := (s9 hl).2
        rcases hq with ⟨_, h2⟩ | h
        · simp at h2
          omega
        · simp at h
          omega
    have hrest := init_sequence_later rest (step m) k s1 s2
      (fun c hc => hne c (List.mem_cons_of_mem _ hc)) s8 hq'
    have hlast := hrest.1 rest.length (Nat.le_refl _)
    refine ⟨by simpa [run] using hlast.1, by simpa [run] using hlast.2.1, ?_, ?_, ?_, ?_⟩
    · intro i hi
      cases i with
      | zero => simp [run, hst]
      | succ i =>
        have h := hrest.1 i (by simpa using hi)
        simp only [run]
        exact ⟨h.1, h.2.2.1.trans s3, h.2.2.2.1.trans s4, h.2.2.2.2.1.trans s5⟩
    · intro i h1 hi
      cases i with
      | zero => omega
      | succ i =>
        have h := hrest.1 i (by simpa using hi)
        simpa [run] using h.2.2.2.2.2
    · intro _
      refine ⟨by simpa [run] using s8, ?_, ?_⟩
      · intro hl
        simpa [run] using (s10 hl).1
      · intro hl
        simpa [run] using (s9 hl).1
    · intro j c h
      cases j with
      | zero =>
        have : c0 = c := by simpa using h
        subst this
        simpa [run] using ⟨s6, s7⟩
      | succ j =>
        have h' : rest[j]? = some c := by simpa using h
        simpa [run] using hrest.2 j c h'

/-- Three coroutines initialised at start: the thread becomes the leader's fiber
in the first call and the leader object is the same after the third. -/
theorem init_sequence_witness :
    ((∀ c ∈ [((1 : CoPtr), roundTripEntry), (2, roundTripEntry), (3, roundTripEntry)],
        c.1 ≠ leader) ∧ 3 + 1 ≤ initThree.quota) ∧
    (run 3 initThree).status = .running ∧
    ((run 1 initThree).mem leader).fiber = some initThree.running ∧
    (run 3 initThree).mem leader = (run 1 initThree).mem leader ∧
    (run 3 initThree).current = initThree.current ∧
    ((run 3 initThree).mem 3).exited = 0 ∧ ((run 3 initThree).mem 3).ret = 0 :=
  have hne : ∀ c ∈ [((1 : CoPtr), roundTripEntry), (2, roundTripEntry), (3, roundTripEntry)],
      c.1 ≠ leader := by
    intro c hc
    simp only [List.mem_cons, List.mem_singleton, List.not_mem_nil, or_false] at hc
    rcases hc with rfl | rfl | rfl <;> decide
  have h := init_sequence [(1, roundTripEntry), (2, roundTripEntry), (3, roundTripEntry)]
    initThree (.ret 0) rfl rfl hne (Or.inr (by decide))
  have h3 := h.2.2.2.2.2 2 (3, roundTripEntry) rfl
  ⟨⟨hne, by decide⟩, h.1, (h.2.2.2.2.1 (by decide)).2.1 rfl, h.2.2.2.1 3 (by decide) (by decide),
    (h.2.2.1 3 (by decide)).2.1, h3.1, h3.2⟩

end Winfibers

/-! ## Raw-context backend: theorems -/

namespace Continuation

/-- A stopped process stays as it is, however many calls are run. -/
theorem cc_run_of_stopped (n : Nat) (m : Machine) (h : m.status ≠ .running) : run n m = m := by
  induction n with
  | zero => rfl
  | succ n ih =>
    have hs : step m = m := by
      unfold step
      split
      · rename_i heq
        exact absurd heq h
      · rfl
    simp [run, hs, ih]

/-- C4: when `to.exited` is non-zero, `cc_swap(from, to)` aborts through
`g_error`: every continuation object is as before (`to.last` and `from.jmp`
included), no `_longjmp` is performed, the calling code is not resumed with a
return value, and nothing runs afterwards. -/
theorem cc_swap_exited_aborts (m : Machine) (src dst : CcPtr) (k : Int → Prog)
    (h : (m.mem dst).exited ≠ 0) :
    (cc_swap m src dst k).status = .aborted ∧ (cc_swap m src dst k).mem = m.mem ∧
    (cc_swap m src dst k).code = m.code ∧ (cc_swap m src dst k).retval = m.retval ∧
    (cc_swap m src dst k).base = m.base ∧
    (cc_swap m src dst k).trace = m.trace ++ [Event.gerror] ∧
    ∀ n, run n (cc_swap m src dst k) = cc_swap m src dst k := by
  have hs : cc_swap m src dst k = g_error m := by
    simp [cc_swap, h]
  refine ⟨?_, ?_, ?_, ?_, ?_, ?_, ?_⟩ <;> try (simp [hs, g_error, Machine.log, Machine.stop])
  intro n
  apply cc_run_of_stopped
  simp [hs, g_error, Machine.log, Machine.stop]

/-- The second swap into the finished continuation `2` of `finishedTwice`. -/
theorem cc_swap_exited_aborts_witness :
    ((run 3 finishedTwice).mem 2).exited ≠ 0 ∧
    (cc_swap (run 3 finishedTwice) 1 2 (fun _ => Prog.ret)).status = .aborted ∧
    (cc_swap (run 3 finishedTwice) 1 2 (fun _ => Prog.ret)).mem = (run 3 finishedTwice).mem :=
  have h := cc_swap_exited_aborts (run 3 finishedTwice) 1 2 (fun _ => Prog.ret) (by decide)
  ⟨by decide, h.1, h.2.1⟩

/-- The bit pattern of the `int` read from a bit pattern is that pattern. -/
theorem bitsOfInt_intOfBits (n : Nat) : bitsOfInt (intOfBits n) = n % 2 ^ 32 := by
  unfold bitsOfInt intOfBits
  split <;> omega

/-- A pointer that fits in 64 bits and in the pointer width comes back unchanged
from the two `int` halves of `union cc_arg`. -/
theorem cc_arg_join_split (ptrBits p : Nat) (h64 : p < 2 ^ 64) (hp : p < 2 ^ ptrBits) :
    cc_arg_join ptrBits (cc_arg_split p).1 (cc_arg_split p).2 = p := by
  unfold cc_arg_join cc_arg_split
  simp only [bitsOfInt_intOfBits]
  have h : p % 2 ^ 32 + 2 ^ 32 * (p / 2 ^ 32 % 2 ^ 32) = p := by omega
  rw [h]
  exact Nat.mod_eq_of_lt hp

/-- C19 fails on `swapcontextRefused`: `swapcontext` fails inside `cc_init`, yet
`cc_init` returns normally to its caller (the process keeps running the
caller's code, no `g_error` message) with the continuation holding no
checkpoint; the swap into it that follows jumps through the unset `jmp`. -/
theorem cc_init_ignores_swapcontext_failure :
    swapcontextRefused.swapcontextFails = true ∧
    (run 1 swapcontextRefused).status = .running ∧
    (run 1 swapcontextRefused).code = (Prog.swap 1 2 fun _ => Prog.ret) ∧
    (run 1 swapcontextRefused).trace = [] ∧
    ((run 1 swapcontextRefused).mem 2).jmp.isNone = true ∧
    (run 2 swapcontextRefused).status = .undefined :=
  ⟨rfl, by decide, rfl, by decide, by decide, by decide⟩

/-- The bootstrap pass through `continuation_trampoline` writes no `exited`
field. -/
theorem trampoline_keeps_exited (m : Machine) (i0 i1 : Int) (k : Prog) (c : CcPtr) :
    ((continuation_trampoline m i0 i1 k).mem c).exited = (m.mem c).exited := by
  unfold continuation_trampoline
  generalize cc_arg_join m.ptrBits i0 i1 = cc
  by_cases h : c = cc
  · subst h
    simp only [setCc]
    repeat' split
    all_goals simp [g_error, Machine.log, Machine.stop, setCc]
  · simp only [setCc]
    repeat' split
    all_goals simp [g_error, Machine.log, Machine.stop, setCc, h]

/-- A stopped process makes no step. -/
theorem cc_step_of_stopped (m : Machine) (h : m.status ≠ .running) : step m = m := by
  unfold step
  split
  · rename_i heq
    exact absurd heq h
  · rfl

/-- A `_longjmp` writes no continuation object. -/
theorem longjmp_mem (m : Machine) (owner : CcPtr) : (_longjmp m owner).mem = m.mem := by
  unfold _longjmp continuation_trampoline_enter cc_swap_resume
  simp only [Machine.log, Machine.stop, Machine.resume]
  repeat' split
  all_goals rfl

/-- A `_longjmp` adds no `leave` event. -/
theorem longjmp_leaves (m : Machine) (owner c : CcPtr) :
    (_longjmp m owner).trace.count (Event.leave c) = m.trace.count (Event.leave c) := by
  unfold _longjmp continuation_trampoline_enter cc_swap_resume
  simp only [Machine.log, Machine.stop, Machine.resume]
  repeat' split
  all_goals simp [List.count_append, List.count_cons]

/-- The bootstrap pass through `continuation_trampoline` adds no `leave` event. -/
theorem trampoline_leaves (m : Machine) (i0 i1 : Int) (k : Prog) (c : CcPtr) :
    (continuation_trampoline m i0 i1 k).trace.count (Event.leave c) =
      m.trace.count (Event.leave c) := by
  unfold continuation_trampoline
  simp only [g_error, Machine.log, Machine.stop]
  repeat' split
  all_goals simp [List.count_append, List.count_cons]

/-- One API call other than `cc_init(c)` sets `c.exited` to 1 if it is the
return of the entry of `c` and leaves it alone otherwise. -/
theorem step_exited (m : Machine) (c : CcPtr) (hi : initialises c m.code = false) :
    ((step m).mem c).exited = if entryReturns m c then 1 else (m.mem c).exited := by
  by_cases hst : m.status = .running
  swap
  · rw [cc_step_of_stopped m hst]
    have : entryReturns m c = false := by
      unfold entryReturns
      split
      · rename_i h _ _
        exact absurd h hst
      · rfl
    simp [this]
  obtain ⟨mem, code, base, status, retval, ptrBits, gf, sf, cf, trace⟩ := m
  simp only at hi hst
  subst hst
  cases code with
  | ret =>
    cases base with
    | none => simp [step, entryReturns, Machine.stop]
    | some cc =>
      simp only [step, entryReturns, continuation_trampoline_leave, Machine.log, Machine.stop]
      by_cases h : cc = c
      · subst h
        split <;> simp [longjmp_mem, setCc]
      · have h' : c ≠ cc := fun e => h e.symm
        split <;> simp [longjmp_mem, setCc, h, h']
  | swap src dst k =>
    simp only [step, entryReturns, cc_swap, g_error, Machine.log, Machine.stop]
    split
    · simp only [longjmp_mem, setCc]
      repeat' split
      all_goals simp_all
    · simp
  | init cc k =>
    have hne : cc ≠ c := by
      intro h
      simp [initialises, h] at hi
    have hne' : c ≠ cc := fun h => hne h.symm
    simp only [step, entryReturns, cc_init, g_error, Machine.log, Machine.stop]
    repeat' split
    all_goals simp_all [trampoline_keeps_exited, setCc]
  | release cc k =>
    simp only [step, entryReturns, cc_release, Machine.log, Machine.resume]
    split <;> simp

/-- One API call adds a `leave c` event exactly if it is the return of the entry
of `c`. -/
theorem step_leaves (m : Machine) (c : CcPtr) :
    (step m).trace.count (Event.leave c) =
      m.trace.count (Event.leave c) + if entryReturns m c then 1 else 0 := by
  by_cases hst : m.status = .running
  swap
  · rw [cc_step_of_stopped m hst]
    have : entryReturns m c = false := by
      unfold entryReturns
      split
      · rename_i h _ _
        exact absurd h hst
      · rfl
    simp [this]
  obtain ⟨mem, code, base, status, retval, ptrBits, gf, sf, cf, trace⟩ := m
  simp only at hst
  subst hst
  cases code with
  | ret =>
    cases base with
    | none => simp [step, entryReturns, Machine.stop]
    | some cc =>
      simp only [step, entryReturns, continuation_trampoline_leave, Machine.log, Machine.stop]
      by_cases h : cc = c
      · subst h
        split <;> simp [longjmp_leaves, List.count_append, List.count_cons]
      · split <;> simp [longjmp_leaves, List.count_append, List.count_cons, h]
  | swap src dst k =>
    simp only [step, entryReturns, cc_swap, g_error, Machine.log, Machine.stop]
    split <;> simp [longjmp_leaves, List.count_append, List.count_cons]
  | init cc k =>
    simp only [step, entryReturns, cc_init, g_error, Machine.log, Machine.stop]
    repeat' split
    all_goals simp_all [trampoline_leaves, List.count_append, List.count_cons]
  | release cc k =>
    simp only [step, entryReturns, cc_release, Machine.log, Machine.resume]
    split <;> simp [List.count_append, List.count_cons]

/-- Through any number of API calls none of which is `cc_init(c)`: if `c.exited`
is non-zero exactly when more than `b` entries of `c` have returned, it stays
so, and `c.exited` stays 0 or 1. -/
theorem run_exited_iff_left (c : CcPtr) (b n : Nat) (m : Machine)
    (hi : ∀ i, i < n → initialises c (run i m).code = false)
    (h1 : (m.mem c).exited ≠ 0 ↔ b < m.trace.count (Event.leave c))
    (h2 : b ≤ m.trace.count (Event.leave c))
    (h3 : (m.mem c).exited = 0 ∨ (m.mem c).exited = 1) :
    (((run n m).mem c).exited ≠ 0 ↔ b < (run n m).trace.count (Event.leave c)) ∧
    (((run n m).mem c).exited = 0 ∨ ((run n m).mem c).exited = 1) := by
  induction n generalizing m with
  | zero => exact ⟨h1, h3⟩
  | succ n ih =>
    have h0 := hi 0 (Nat.succ_pos n)
    have he := step_exited m c h0
    have hl := step_leaves m c
    simp only [run]
    apply ih (step m)
    · intro i hlt
      exact hi (i + 1) (Nat.succ_lt_succ hlt)
    · rw [he, hl]
      split
      · simp
        omega
      · simpa using h1
    · rw [hl]
      omega
    · rw [he]
      split
      · exact Or.inr rfl
      · exact h3
/-- One API call leaves `c.exited` alone, sets it to 1 on the return of the entry
of `c`, or sets it to 0 (in `cc_init(c)`). -/
theorem step_exited_or_zero (m : Machine) (c : CcPtr) :
    ((step m).mem c).exited = (if entryReturns m c then 1 else (m.mem c).exited) ∨
    (((step m).mem c).exited = 0 ∧ entryReturns m c = false) := by
  by_cases hi : initialises c m.code = false
  · exact Or.inl (step_exited m c hi)
  · by_cases hst : m.status = .running
    swap
    · rw [cc_step_of_stopped m hst]
      have : entryReturns m c = false := by
        unfold entryReturns
        split
        · rename_i h _ _
          exact absurd h hst
        · rfl
      simp [this]
    obtain ⟨mem, code, base, status, retval, ptrBits, gf, sf, cf, trace⟩ := m
    simp only at hi hst
    subst hst
    cases code with
    | ret => simp [initialises] at hi
    | swap src dst k => simp [initialises] at hi
    | release cc k => simp [initialises] at hi
    | init cc k =>
      have hcc : cc = c := by simpa [initialises] using hi
      subst hcc
      simp only [step, entryReturns, cc_init, g_error, Machine.log, Machine.stop]
      repeat' split
      all_goals simp_all [trampoline_keeps_exited, setCc]

/-- Through any number of API calls: if `c.exited` is non-zero only when more
than `b` entries of `c` have returned, it stays so, and `c.exited` stays 0 or 1. -/
theorem run_exited_imp_left (c : CcPtr) (b n : Nat) (m : Machine)
    (h1 : (m.mem c).exited ≠ 0 → b < m.trace.count (Event.leave c))
    (h2 : b ≤ m.trace.count (Event.leave c))
    (h3 : (m.mem c).exited = 0 ∨ (m.mem c).exited = 1) :
    (((run n m).mem c).exited ≠ 0 → b < (run n m).trace.count (Event.leave c)) ∧
    (((run n m).mem c).exited = 0 ∨ ((run n m).mem c).exited = 1) := by
  induction n generalizing m with
  | zero => exact ⟨h1, h3⟩
  | succ n ih =>
    have he := step_exited_or_zero m c
    have hl := step_leaves m c
    simp only [run]
    apply ih (step m)
    · rcases he with he | ⟨he, _⟩
      · rw [he, hl]
        split
        · intro _
          omega
        · intro h
          have := h1 h
          omega
      · intro h
        exact absurd he h
    · rw [hl]
      omega
    · rcases he with he | ⟨he, _⟩
      · rw [he]
        split
        · exact Or.inr rfl
        · exact h3
      · exact Or.inl he
/-- C14: the value `cc_swap(from, to)` returns is `to.exited` at the moment
control comes back.  From a call made with `to.exited = 0`, after any number of
API calls `to.exited` is 0 or 1; it is non-zero only if the entry of `to` has
returned since the call, and it is 1 if that entry has returned since and `to`
was not created anew by `cc_init` in between.  In particular, when the entry of
`to` returns with `to.last` naming the checkpoint of the pending
`cc_swap(from, to)`, the trampoline sets `to.exited = 1`, jumps back, and the
call returns 1; when `to` swaps back into `from`, the call returns 0. -/
theorem cc_swap_reports_exit (src dst : CcPtr) :
    (∀ (m : Machine) k, (cc_swap_resume m src dst k).retval =
        ((cc_swap_resume m src dst k).mem dst).exited ∧
      (cc_swap_resume m src dst k).code = k ((cc_swap_resume m src dst k).mem dst).exited) ∧
    (∀ (m : Machine) (n : Nat), (m.mem dst).exited = 0 →
      (((run n m).mem dst).exited ≠ 0 →
        m.trace.count (Event.leave dst) < (run n m).trace.count (Event.leave dst)) ∧
      (((run n m).mem dst).exited = 0 ∨ ((run n m).mem dst).exited = 1) ∧
      ((∀ i, i < n → initialises dst (run i m).code = false) →
        m.trace.count (Event.leave dst) < (run n m).trace.count (Event.leave dst) →
        ((run n m).mem dst).exited = 1)) ∧
    (∀ (m : Machine) k b, m.status = .running → m.code = .ret → m.base = some dst →
      (m.mem dst).last = .jmpOf src → (m.mem src).jmp = some (.swap src dst k b) → src ≠ dst →
      (step m).retval = 1 ∧ (step m).code = k 1 ∧ ((step m).mem dst).exited = 1 ∧
      (step m).trace = m.trace ++ [Event.leave dst, Event.longjmp src] ∧
      (step m).base = b ∧ (step m).status = .running) ∧
    (∀ (m : Machine) k b k2, m.status = .running → m.code = .swap dst src k2 →
      (m.mem dst).exited = 0 → (m.mem src).exited = 0 →
      (m.mem src).jmp = some (.swap src dst k b) → src ≠ dst →
      (step m).retval = 0 ∧ (step m).code = k 0 ∧ ((step m).mem dst).exited = 0 ∧
      (step m).trace = m.trace ++ [Event.longjmp src] ∧
      (step m).base = b ∧ (step m).status = .running) := by
  refine ⟨?_, ?_, ?_, ?_⟩
  · intro m k
    simp [cc_swap_resume, Machine.resume]
  · intro m n he
    have h1 := run_exited_imp_left dst (m.trace.count (Event.leave dst)) n m
      (by simp [he]) (Nat.le_refl _) (Or.inl he)
    refine ⟨h1.1, h1.2, ?_⟩
    intro hi hlt
    have h2 := run_exited_iff_left dst (m.trace.count (Event.leave dst)) n m hi
      (by simp [he]) (Nat.le_refl _) (Or.inl he)
    rcases h2.2 with h0 | h
    · exact absurd h0 (h2.1.mpr hlt)
    · exact h
  · intro m k b hst hcode hbase hlast hjmp hne
    obtain ⟨mem, code, base, status, retval, ptrBits, gf, sf, cf, trace⟩ := m
    simp only at hst hcode hbase hlast hjmp
    subst hst hcode hbase
    have hne' : dst ≠ src := fun h => hne h.symm
    simp [step, continuation_trampoline_leave, _longjmp, cc_swap_resume, Machine.log,
      Machine.resume, setCc, hlast, hjmp, hne, hne']
  · intro m k b k2 hst hcode hed hes hjmp hne
    obtain ⟨mem, code, base, status, retval, ptrBits, gf, sf, cf, trace⟩ := m
    simp only at hst hcode hed hes hjmp
    subst hst hcode
    have hne' : dst ≠ src := fun h => hne h.symm
    simp [step, cc_swap, _longjmp, cc_swap_resume, Machine.log,
      Machine.resume, setCc, hed, hes, hjmp, hne, hne']

/-- The two swaps of `swapBack`: the first returns 0 when continuation `2` swaps
back, the second returns 1 when its entry has returned. -/
theorem cc_swap_reports_exit_witness :
    (((run 1 swapBack).mem 2).exited = 0 ∧
      (∀ i, i < 4 → initialises 2 (run i (run 1 swapBack)).code = false) ∧
      (run 1 swapBack).trace.count (Event.leave 2) <
        (run 4 (run 1 swapBack)).trace.count (Event.leave 2)) ∧
    ((run 4 (run 1 swapBack)).mem 2).exited = 1 ∧
    ((step (run 4 swapBack)).retval = 1 ∧ ((step (run 4 swapBack)).mem 2).exited = 1) ∧
    ((step (run 2 swapBack)).retval = 0 ∧ ((step (run 2 swapBack)).mem 2).exited = 0) :=
  have h1 := ((cc_swap_reports_exit 1 2).2.1 (run 1 swapBack) 4 (by decide)).2.2
    (by decide) (by decide)
  have h2 := (cc_swap_reports_exit 1 2).2.2.1 (run 4 swapBack) (fun _ => Prog.ret) none
    (by decide) rfl (by decide) (by decide) rfl (by decide)
  have h3 := (cc_swap_reports_exit 1 2).2.2.2 (run 2 swapBack)
    (fun _ => Prog.swap 1 2 fun _ => Prog.ret) none (fun _ => Prog.ret)
    (by decide) rfl (by decide) (by decide) rfl (by decide)
  ⟨⟨by decide, by decide, by decide⟩, h1, ⟨h2.1, h2.2.2.1⟩, ⟨h3.1, h3.2.2.1⟩⟩

/-- C22: if `cc.release` is present, `cc_release(cc)` calls it once on `cc` (one
`release cc` event is appended) and returns its result, writing no continuation
object itself; if it is absent, `cc_release(cc)` returns 0 and the memory, the
trace and the status are as before. -/
theorem cc_release_result (m : Machine) (cc : CcPtr) (k : Int → Prog) :
    (∀ release, (m.mem cc).release = some release →
      (cc_release m cc k).trace = m.trace ++ [Event.release cc] ∧
      (cc_release m cc k).retval = release cc ∧ (cc_release m cc k).code = k (release cc) ∧
      (cc_release m cc k).mem = m.mem ∧ (cc_release m cc k).status = m.status) ∧
    ((m.mem cc).release = none →
      (cc_release m cc k).retval = 0 ∧ (cc_release m cc k).code = k 0 ∧
      (cc_release m cc k).trace = m.trace ∧ (cc_release m cc k).mem = m.mem ∧
      (cc_release m cc k).status = m.status ∧ (cc_release m cc k).base = m.base) := by
  constructor
  · intro release h
    simp [cc_release, h, Machine.log, Machine.resume]
  · intro h
    simp [cc_release, h, Machine.resume]

/-- The two calls of `releaseBoth`: the first runs the callback and returns 7,
the second returns 0. -/
theorem cc_release_result_witness :
    ((cc_release releaseBoth 2 (fun _ => Prog.ret)).trace =
        releaseBoth.trace ++ [Event.release 2] ∧
      (cc_release releaseBoth 2 (fun _ => Prog.ret)).retval = (fun _ : CcPtr => (7 : Int)) 2) ∧
    ((releaseBoth.mem 3).release.isNone = true ∧
      (cc_release releaseBoth 3 (fun _ => Prog.ret)).retval = 0 ∧
      (cc_release releaseBoth 3 (fun _ => Prog.ret)).trace = releaseBoth.trace) :=
  have h1 := (cc_release_result releaseBoth 2 (fun _ => Prog.ret)).1 (fun _ => 7) rfl
  have h2 := (cc_release_result releaseBoth 3 (fun _ => Prog.ret)).2 rfl
  ⟨⟨h1.1, h1.2.1⟩, ⟨rfl, h2.1, h2.2.2.1⟩⟩

/-- An `int` read from a bit pattern lies in the range of a 32-bit `int`. -/
theorem intOfBits_range (n : Nat) : -2 ^ 31 ≤ intOfBits n ∧ intOfBits n < 2 ^ 31 := by
  unfold intOfBits
  split <;> constructor <;> omega

/-- C26: for a pointer width of at most 64 bits (twice the width of `int`) and
every pointer `p` of that width, the halves `i[0]`, `i[1]` that `cc_init` reads
from `union cc_arg` are 32-bit `int` values, putting them together again in
`continuation_trampoline` gives `p` back, and the trampoline entered with them
stores its checkpoint in the object at `p`. -/
theorem pointer_round_trip (ptrBits p : Nat) (hw : ptrBits ≤ 64) (hp : p < 2 ^ ptrBits) :
    cc_arg_join ptrBits (cc_arg_split p).1 (cc_arg_split p).2 = p ∧
    (-2 ^ 31 ≤ (cc_arg_split p).1 ∧ (cc_arg_split p).1 < 2 ^ 31) ∧
    (-2 ^ 31 ≤ (cc_arg_split p).2 ∧ (cc_arg_split p).2 < 2 ^ 31) ∧
    (∀ (m : Machine) k, m.ptrBits = ptrBits →
      ((continuation_trampoline m (cc_arg_split p).1 (cc_arg_split p).2 k).mem p).jmp =
        some (.trampoline p)) := by
  have h64 : p < 2 ^ 64 := lt_of_lt_of_le hp (Nat.pow_le_pow_right (by decide) hw)
  have hj := cc_arg_join_split ptrBits p h64 hp
  refine ⟨hj, intOfBits_range _, intOfBits_range _, ?_⟩
  intro m k hm
  subst hm
  unfold continuation_trampoline
  rw [hj]
  simp only [g_error, Machine.log, Machine.stop]
  split
  · split <;> simp [setCc]
  · simp [setCc]

/-- A user-space address of a 64-bit process and an address of a 32-bit
process. -/
theorem pointer_round_trip_witness :
    ((64 ≤ 64 ∧ 140729205094008 < 2 ^ 64) ∧
      cc_arg_join 64 (cc_arg_split 140729205094008).1 (cc_arg_split 140729205094008).2 =
        140729205094008) ∧
    ((32 ≤ 64 ∧ 3221225472 < 2 ^ 32) ∧
      cc_arg_join 32 (cc_arg_split 3221225472).1 (cc_arg_split 3221225472).2 = 3221225472) :=
  ⟨⟨⟨by decide, by decide⟩, (pointer_round_trip 64 140729205094008 (by decide) (by decide)).1⟩,
    ⟨⟨by decide, by decide⟩, (pointer_round_trip 32 3221225472 (by decide) (by decide)).1⟩⟩
/-- The bootstrap pass through `continuation_trampoline` writes no `last`
pointer. -/
theorem trampoline_keeps_last (m : Machine) (i0 i1 : Int) (k : Prog) (c : CcPtr) :
    ((continuation_trampoline m i0 i1 k).mem c).last = (m.mem c).last := by
  unfold continuation_trampoline
  generalize cc_arg_join m.ptrBits i0 i1 = cc
  by_cases h : c = cc
  · subst h
    simp only [setCc]
    repeat' split
    all_goals simp [g_error, Machine.log, Machine.stop, setCc]
  · simp only [setCc]
    repeat' split
    all_goals simp [g_error, Machine.log, Machine.stop, setCc, h]

/-- A `_longjmp` leaves the process running or in an undefined state, never
finished. -/
theorem longjmp_not_finished (m : Machine) (owner : CcPtr) (h : m.status = .running) :
    (_longjmp m owner).status = .running ∨ (_longjmp m owner).status = .undefined := by
  unfold _longjmp continuation_trampoline_enter cc_swap_resume
  simp only [Machine.log, Machine.stop, Machine.resume]
  repeat' split
  all_goals simp [h]

/-- The trace after a `_longjmp`: the jump itself, followed by the `enter` event
when the checkpoint is that of a trampoline. -/
theorem longjmp_trace (m : Machine) (owner : CcPtr) :
    (_longjmp m owner).trace = m.trace ++ [Event.longjmp owner] ∨
    ∃ c, (_longjmp m owner).trace = m.trace ++ [Event.longjmp owner, Event.enter c] := by
  unfold _longjmp continuation_trampoline_enter cc_swap_resume
  simp only [Machine.log, Machine.stop, Machine.resume]
  repeat' split
  all_goals simp

/-- C24: `continuation_trampoline` is never left by a function return.  On the
bootstrap path it leaves through `setcontext(cc->last)` (control is back in the
caller of `cc_init`, only possible when `cc.last` is `&uc_ret`), or `g_error`
aborts, or the jump through `cc.last` is undefined.  On the resumed path a jump
to the trampoline's checkpoint calls `cc.entry` once; when that call returns,
the process does not finish: `cc.exited` is set to 1 and a `_longjmp` is made on
the checkpoint `cc.last` names.  That pointer is stored by `cc_swap(from, cc)`,
together with the checkpoint of the call, and a step that is neither a
`cc_swap` into `cc` nor a `cc_init(cc)` leaves it alone. -/
theorem trampoline_never_returns :
    (∀ (m : Machine) i0 i1 k,
      ((continuation_trampoline m i0 i1 k).status = m.status ∧
        (continuation_trampoline m i0 i1 k).code = k ∧
        (continuation_trampoline m i0 i1 k).trace = m.trace ∧
        (m.mem (cc_arg_join m.ptrBits i0 i1)).last = .ucRet ∧ m.setcontextFails = false) ∨
      ((continuation_trampoline m i0 i1 k).status = .aborted ∧
        (continuation_trampoline m i0 i1 k).trace = m.trace ++ [Event.gerror] ∧
        (m.mem (cc_arg_join m.ptrBits i0 i1)).last = .ucRet ∧ m.setcontextFails = true) ∨
      ((continuation_trampoline m i0 i1 k).status = .undefined ∧
        (m.mem (cc_arg_join m.ptrBits i0 i1)).last ≠ .ucRet)) ∧
    (∀ (m : Machine) cc e, (m.mem cc).jmp = some (.trampoline cc) → (m.mem cc).entry = some e →
      (_longjmp m cc).trace = m.trace ++ [Event.longjmp cc, Event.enter cc] ∧
      (_longjmp m cc).code = e cc ∧ (_longjmp m cc).base = some cc ∧
      (_longjmp m cc).mem = m.mem) ∧
    (∀ (m : Machine) cc, m.status = .running → m.code = .ret → m.base = some cc →
      ((step m).status = .running ∨ (step m).status = .undefined) ∧
      ((step m).mem cc).exited = 1 ∧
      (∀ src, (m.mem cc).last = .jmpOf src →
        (step m).trace = m.trace ++ [Event.leave cc, Event.longjmp src] ∨
        ∃ c, (step m).trace = m.trace ++ [Event.leave cc, Event.longjmp src, Event.enter c]) ∧
      ((∀ src, (m.mem cc).last ≠ .jmpOf src) →
        (step m).status = .undefined ∧ (step m).trace = m.trace ++ [Event.leave cc])) ∧
    (∀ (m : Machine) src cc k, (m.mem cc).exited = 0 →
      ((cc_swap m src cc k).mem cc).last = .jmpOf src ∧
      ((cc_swap m src cc k).mem src).jmp = some (.swap src cc k m.base)) ∧
    (∀ (m : Machine) c, (∀ src k, m.code ≠ .swap src c k) → (∀ k, m.code ≠ .init c k) →
      ((step m).mem c).last = (m.mem c).last) := by
  refine ⟨?_, ?_, ?_, ?_, ?_⟩
  · intro m i0 i1 k
    unfold continuation_trampoline
    generalize cc_arg_join m.ptrBits i0 i1 = cc
    rcases hc : (m.mem cc).last with _ | _ | src
    · simp [setCc, hc, Machine.stop]
    · by_cases hs : m.setcontextFails = true
      · simp [setCc, hc, hs, g_error, Machine.log, Machine.stop]
      · simp [setCc, hc, hs]
    · simp [setCc, hc, Machine.stop]
  · intro m cc e hj he
    simp [_longjmp, continuation_trampoline_enter, Machine.log, hj, he]
  · intro m cc hst hcode hbase
    obtain ⟨mem, code, base, status, retval, ptrBits, gf, sf, cf, trace⟩ := m
    simp only at hst hcode hbase
    subst hst hcode hbase
    simp only [step, continuation_trampoline_leave, Machine.log, Machine.stop]
    refine ⟨?_, ?_, ?_, ?_⟩
    · split
      · exact longjmp_not_finished _ _ rfl
      · exact Or.inr rfl
    · split <;> simp [longjmp_mem, setCc]
    · intro src hl
      have key : ∀ m' : Machine, m'.trace = trace ++ [Event.leave cc] →
          ((_longjmp m' src).trace = trace ++ [Event.leave cc, Event.longjmp src] ∨
            ∃ c, (_longjmp m' src).trace =
              trace ++ [Event.leave cc, Event.longjmp src, Event.enter c]) := by
        intro m' ht
        rcases longjmp_trace m' src with h | ⟨c, h⟩
        · left
          rw [h, ht]
          simp
        · right
          exact ⟨c, by rw [h, ht]; simp⟩
      simp only [setCc, if_true, hl]
      exact key _ rfl
    · intro hl
      rcases hc : (mem cc).last with _ | _ | src
      · simp [setCc, hc]
      · simp [setCc, hc]
      · exact absurd hc (hl src)
  · intro m src cc k he
    simp only [cc_swap, he, if_true, longjmp_mem, setCc]
    by_cases h : cc = src
    · subst h
      simp
    · have h' : src ≠ cc := fun e => h e.symm
      simp [h, h']
  · intro m c hs hi
    by_cases hst : m.status = .running
    swap
    · rw [cc_step_of_stopped m hst]
    obtain ⟨mem, code, base, status, retval, ptrBits, gf, sf, cf, trace⟩ := m
    simp only at hs hi hst
    subst hst
    cases code with
    | ret =>
      cases base with
      | none => simp [step, Machine.stop]
      | some cc =>
        simp only [step, continuation_trampoline_leave, Machine.log, Machine.stop]
        by_cases h : c = cc
        · subst h
          split <;> simp [longjmp_mem, setCc]
        · split <;> simp [longjmp_mem, setCc, h]
    | swap src dst k =>
      have hne : c ≠ dst := by
        intro h
        subst h
        exact hs src k rfl
      simp only [step, cc_swap, g_error, Machine.log, Machine.stop]
      split
      · simp only [longjmp_mem, setCc]
        by_cases h : c = src
        · subst h
          simp [hne]
        · simp [h, hne]
      · rfl
    | init cc k =>
      have hne : c ≠ cc := by
        intro h
        subst h
        exact hi k rfl
      simp only [step, cc_init, g_error, Machine.log, Machine.stop]
      repeat' split
      all_goals simp_all [trampoline_keeps_last, setCc]
    | release cc k =>
      simp only [step, cc_release, Machine.log, Machine.resume]
      split <;> rfl

/-- The return of the entry of continuation `2` in `lastResumer`: it was started
from the main code and last swapped into by continuation `3`; the trampoline
sets `exited` and jumps to the checkpoint of `3`. -/
theorem trampoline_never_returns_witness :
    (((run 2 lastResumer).mem 2).exited = 0 ∧
      ((cc_swap (run 2 lastResumer) 1 2 (fun _ => Prog.ret)).mem 2).last = .jmpOf 1) ∧
    ((_longjmp (run 2 lastResumer) 2).trace =
      (run 2 lastResumer).trace ++ [Event.longjmp 2, Event.enter 2]) ∧
    (((run 6 lastResumer).base = some 2 ∧ ((run 6 lastResumer).mem 2).last = .jmpOf 3) ∧
      ((step (run 6 lastResumer)).mem 2).exited = 1 ∧
      ((step (run 6 lastResumer)).status = .running ∨
        (step (run 6 lastResumer)).status = .undefined) ∧
      (step (run 6 lastResumer)).trace =
        (run 6 lastResumer).trace ++ [Event.leave 2, Event.longjmp 3]) :=
  have h4 := trampoline_never_returns.2.2.2.1 (run 2 lastResumer) 1 2 (fun _ => Prog.ret)
    (by decide)
  have h2 := trampoline_never_returns.2.1 (run 2 lastResumer) 2 swapBackEntry rfl rfl
  have h3 := trampoline_never_returns.2.2.1 (run 6 lastResumer) 2 (by decide) rfl (by decide)
  ⟨⟨by decide, h4.1⟩, h2.1, ⟨⟨by decide, by decide⟩, h3.2.1, h3.1, by decide⟩⟩

end Continuation

/-! ## Both backends -/

namespace GtkSession

/-- A call on something that is not a session returns `NULL` and only logs. -/
theorem get_invalid (w : ObjWorld) (session : Nat) (hv : w.is_session session = false) :
    spice_gtk_session_get w session = (none, { w with criticals := w.criticals + 1 }) := by
  simp [spice_gtk_session_get, hv]

/-- A call on a session that has an object returns it and changes nothing. -/
theorem get_existing (w : ObjWorld) (session self : Nat) (hv : w.is_session session = true)
    (hd : w.data session = some self) :
    spice_gtk_session_get w session = (some self, w) := by
  simp [spice_gtk_session_get, hv, hd]

/-- A call on a session that has no object makes one and records it. -/
theorem get_fresh (w : ObjWorld) (session : Nat) (hv : w.is_session session = true)
    (hd : w.data session = none) :
    spice_gtk_session_get w session =
      (some w.next,
        { w with
          next := w.next + 1
          created := w.created ++ [(w.next, session)]
          data := fun s => if s = session then some w.next else w.data s }) := by
  simp [spice_gtk_session_get, hv, hd]

/-- One call never changes which addresses are sessions nor what is recorded on
a session that has an object, and leaves the object it returns recorded on its
session. -/
theorem get_recorded (w : ObjWorld) (session : Nat) :
    (spice_gtk_session_get w session).2.is_session = w.is_session ∧
    (∀ s o, w.data s = some o → (spice_gtk_session_get w session).2.data s = some o) ∧
    (w.is_session session = true →
      ∃ o, (spice_gtk_session_get w session).1 = some o ∧
        (spice_gtk_session_get w session).2.data session = some o) := by
  cases hv : w.is_session session with
  | false =>
    rw [get_invalid w session hv]
    exact ⟨rfl, fun s o hs => hs, fun hf => by simp at hf⟩
  | true =>
    cases hd : w.data session with
    | some self =>
      rw [get_existing w session self hv hd]
      exact ⟨rfl, fun s o hs => hs, fun _ => ⟨self, rfl, hd⟩⟩
    | none =>
      rw [get_fresh w session hv hd]
      refine ⟨rfl, ?_, fun _ => ⟨w.next, rfl, by simp⟩⟩
      intro s o hs
      dsimp only
      split
      · rename_i e
        rw [e, hd] at hs
        simp at hs
      · exact hs

/-- One call keeps the relation between sessions and objects one to one. -/
theorem get_oneToOne (w : ObjWorld) (session : Nat) (h : w.oneToOne) :
    (spice_gtk_session_get w session).2.oneToOne := by
  cases hv : w.is_session session with
  | false =>
    rw [get_invalid w session hv]
    exact ⟨h.1, h.2⟩
  | true =>
    cases hd : w.data session with
    | some self =>
      rw [get_existing w session self hv hd]
      exact h
    | none =>
      rw [get_fresh w session hv hd]
      refine ⟨?_, ?_⟩
      · intro s o hs
        dsimp only at hs ⊢
        split at hs
        · simp only [Option.some.injEq] at hs
          omega
        · have := h.1 s o hs
          omega
      · intro s1 s2 o h1 h2
        dsimp only at h1 h2
        split at h1 <;> split at h2
        · rename_i e1 e2
          rw [e1, e2]
        · simp only [Option.some.injEq] at h1
          have := h.1 s2 _ h2
          omega
        · simp only [Option.some.injEq] at h2
          have := h.1 s1 _ h1
          omega
        · exact h.2 s1 s2 o h1 h2

/-- A sequence of calls never changes which addresses are sessions nor what is
recorded on a session that has an object. -/
theorem getAll_recorded (calls : List Nat) :
    ∀ w : ObjWorld, (getAll w calls).2.is_session = w.is_session ∧
      (∀ s o, w.data s = some o → (getAll w calls).2.data s = some o) := by
  induction calls with
  | nil =>
    intro w
    exact ⟨rfl, fun s o hs => hs⟩
  | cons session rest ih =>
    intro w
    have h1 := get_recorded w session
    have h2 := ih (spice_gtk_session_get w session).2
    simp only [getAll]
    exact ⟨h2.1.trans h1.1, fun s o hs => h2.2 s o (h1.2.1 s o hs)⟩

/-- A sequence of calls keeps the relation one to one. -/
theorem getAll_oneToOne (calls : List Nat) :
    ∀ w : ObjWorld, w.oneToOne → (getAll w calls).2.oneToOne := by
  induction calls with
  | nil =>
    intro w h
    exact h
  | cons session rest ih =>
    intro w h
    simp only [getAll]
    exact ih _ (get_oneToOne w session h)

/-- Every call of a sequence that is made on a session returns an object, and
that object is the one recorded on the session at the end. -/
theorem getAll_results (calls : List Nat) :
    ∀ (w : ObjWorld) (i s : Nat), calls[i]? = some s → w.is_session s = true →
      ∃ o, (getAll w calls).1[i]? = some (some o) ∧ (getAll w calls).2.data s = some o := by
  induction calls with
  | nil =>
    intro w i s hi
    simp at hi
  | cons session rest ih =>
    intro w i s hi hv
    have h1 := get_recorded w session
    cases i with
    | zero =>
      simp only [List.getElem?_cons_zero, Option.some.injEq] at hi
      subst hi
      obtain ⟨o, ho1, ho2⟩ := h1.2.2 hv
      refine ⟨o, ?_, ?_⟩
      · simp [getAll, ho1]
      · simp only [getAll]
        exact (getAll_recorded rest _).2 _ o ho2
    | succ k =>
      simp only [List.getElem?_cons_succ] at hi
      obtain ⟨o, ho1, ho2⟩ := ih (spice_gtk_session_get w session).2 k s hi (by rw [h1.1]; exact hv)
      exact ⟨o, by simpa [getAll] using ho1, by simpa [getAll] using ho2⟩

/-- C23: `spice_gtk_session_get` keeps a one-to-one relation between sessions
and their `SpiceGtkSession` objects.  In a world where that relation is one to
one and every recorded object has been handed out before: a call on something
that is not a session returns `NULL`, logs a warning and creates nothing; the
first call on a session creates one object, records it on the session and
returns it; any later call on that session, whatever calls were made in
between, returns the same object and changes nothing; and in any sequence of
calls, two calls on sessions return the same object exactly when they are made
on the same session. -/
theorem session_get_one_to_one (w : ObjWorld) (h : w.oneToOne) :
    (∀ session, w.is_session session = false →
      spice_gtk_session_get w session = (none, { w with criticals := w.criticals + 1 })) ∧
    (∀ session, w.is_session session = true → w.data session = none →
      (spice_gtk_session_get w session).1 = some w.next ∧
      (spice_gtk_session_get w session).2.created = w.created ++ [(w.next, session)] ∧
      (spice_gtk_session_get w session).2.data session = some w.next) ∧
    (∀ session others, w.is_session session = true →
      spice_gtk_session_get (getAll (spice_gtk_session_get w session).2 others).2 session =
        ((spice_gtk_session_get w session).1,
          (getAll (spice_gtk_session_get w session).2 others).2)) ∧
    (∀ (calls : List Nat) (i j si sj : Nat), calls[i]? = some si → calls[j]? = some sj →
      w.is_session si = true → w.is_session sj = true →
      (((getAll w calls).1[i]? = (getAll w calls).1[j]?) ↔ si = sj)) := by
  refine ⟨fun session hv => get_invalid w session hv, ?_, ?_, ?_⟩
  · intro session hv hd
    rw [get_fresh w session hv hd]
    simp
  · intro session others hv
    obtain ⟨o, ho1, ho2⟩ := (get_recorded w session).2.2 hv
    have hr := getAll_recorded others (spice_gtk_session_get w session).2
    rw [ho1]
    exact get_existing _ session o (by rw [hr.1, (get_recorded w session).1]; exact hv)
      (hr.2 session o ho2)
  · intro calls i j si sj hi hj hvi hvj
    obtain ⟨oi, hoi1, hoi2⟩ := getAll_results calls w i si hi hvi
    obtain ⟨oj, hoj1, hoj2⟩ := getAll_results calls w j sj hj hvj
    have hfin := getAll_oneToOne calls w h
    rw [hoi1, hoj1]
    constructor
    · intro e
      simp only [Option.some.injEq] at e
      subst e
      exact hfin.2 si sj oi hoi2 hoj2
    · intro e
      subst e
      rw [hoi2] at hoj2
      simp only [Option.some.injEq] at hoj2
      rw [hoj2]

/-- Two sessions asked for in turn, the first again, and an address that is not
a session: two objects are created, the first session gets its own back, and the
invalid call returns `NULL`. -/
theorem session_get_one_to_one_witness :
    freshWorld.oneToOne ∧
    (getAll freshWorld [1, 2, 1, 200]).1 = [some 1000, some 1001, some 1000, none] ∧
    (getAll freshWorld [1, 2, 1, 200]).2.created = [(1000, 1), (1001, 2)] ∧
    spice_gtk_session_get freshWorld 200 =
      (none, { freshWorld with criticals := freshWorld.criticals + 1 }) ∧
    (((getAll freshWorld [1, 2, 1, 200]).1[0]? = (getAll freshWorld [1, 2, 1, 200]).1[2]?) ↔
      1 = 1) :=
  have h : freshWorld.oneToOne := by simp [ObjWorld.oneToOne, freshWorld]
  ⟨h, by decide, by decide, (session_get_one_to_one freshWorld h).1 200 (by decide),
    (session_get_one_to_one freshWorld h).2.2.2 [1, 2, 1, 200] 0 2 1 1 (by decide) (by decide)
      (by decide) (by decide)⟩

/-- Pairwise distinct numbers below `n` are at most `n`. -/
theorem nodup_length_le (l : List Nat) (n : Nat) (hd : l.Nodup) (hb : ∀ i ∈ l, i < n) :
    l.length ≤ n := by
  have hsub : l ⊆ List.range n := fun i hi => List.mem_range.mpr (hb i hi)
  have := (List.subperm_of_subset hd hsub).length_le
  simpa using this

/-- While the invariant holds no more targets are written than the table has
rows. -/
theorem ok_num_le (s : GrabState) (n : Nat) (h : s.ok n) : s.num_targets ≤ n := by
  obtain ⟨_, hsel, hlen, hnd, hmem⟩ := h
  rw [← hlen, ← List.length_map s.written (·.info)]
  apply nodup_length_le _ _ hnd
  intro i hi
  have := (hmem i).mp hi
  have hlt := (List.getElem?_eq_some.mp this).1
  omega

/-- Writing slot `k` of an array whose first `k` slots are in use adds the
entry at the end of the slots in use. -/
theorem written_set (l : List (Option GtkTargetEntry)) (k : Nat) (e : GtkTargetEntry)
    (hk : k < l.length) :
    ((l.set k (some e)).take (k + 1)).filterMap id = (l.take k).filterMap id ++ [e] := by
  rw [List.set_eq_take_append_cons_drop, if_pos hk]
  have hlen : (l.take k).length = k := by
    rw [List.length_take]
    omega
  have : (l.take k ++ some e :: l.drop (k + 1)).take (k + 1) = l.take k ++ [some e] := by
    conv_lhs => rw [show k + 1 = (l.take k).length + 1 by rw [hlen]]
    rw [List.take_append]
    simp
  rw [this]
  simp [List.filterMap_append]

/-- The body of the inner loop passes its bound check and keeps the
invariant. -/
theorem grab_row_ok (tbl : List AtomAgent) (ty : Nat) (s : GrabState) (m : Nat)
    (h : s.ok tbl.length) :
    ∃ s1, grab_row tbl ty s m = some s1 ∧ s1.ok tbl.length ∧ s1.warnings = s.warnings := by
  unfold grab_row
  split
  · exact ⟨s, rfl, h, rfl⟩
  · rename_i row hrow
    have hm : m < tbl.length := (List.getElem?_eq_some.mp hrow).1
    split
    swap
    · exact ⟨s, rfl, h, rfl⟩
    rename_i hcond
    obtain ⟨htl, hsl, hlen, hnd, hmem⟩ := h
    have hsel : s.target_selected[m]? = some false := by
      have hm' : m < s.target_selected.length := by omega
      have := hcond.2
      rw [List.getD_eq_getElem?_getD, List.getElem?_eq_getElem hm'] at this
      rw [List.getElem?_eq_getElem hm']
      simpa using this
    have hnot : m ∉ s.written.map (·.info) := by
      intro hin
      have := (hmem m).mp hin
      rw [hsel] at this
      simp at this
    have hlt : s.num_targets < tbl.length := by
      have hnd' : (m :: s.written.map (·.info)).Nodup := List.nodup_cons.mpr ⟨hnot, hnd⟩
      have hb : ∀ i ∈ m :: s.written.map (·.info), i < tbl.length := by
        intro i hi
        rcases List.mem_cons.mp hi with rfl | hi
        · exact hm
        · have := (hmem i).mp hi
          have := (List.getElem?_eq_some.mp this).1
          omega
      have := nodup_length_le _ _ hnd' hb
      simp only [List.length_cons, List.length_map] at this
      omega
    rw [if_pos hlt]
    refine ⟨_, rfl, ?_, rfl⟩
    have hw : GrabState.written
        { s with found := true
                 targets := s.targets.set s.num_targets (some ⟨row.xatom, m⟩)
                 target_selected := s.target_selected.set m true
                 num_targets := s.num_targets + 1 } = s.written ++ [⟨row.xatom, m⟩] := by
      simp only [GrabState.written]
      exact written_set s.targets s.num_targets ⟨row.xatom, m⟩ (by omega)
    refine ⟨by simpa using htl, by simpa using hsl, ?_, ?_, ?_⟩
    · rw [hw]
      simp [hlen]
    · rw [hw]
      simp only [List.map_append, List.map_cons, List.map_nil]
      exact List.Nodup.append hnd (List.nodup_singleton m) (by simpa using hnot)
    · intro i
      rw [hw]
      simp only [List.map_append, List.map_cons, List.map_nil, List.mem_append,
        List.mem_singleton]
      rw [List.getElem?_set]
      by_cases him : m = i
      · subst him
        simp [show m < s.target_selected.length by omega]
      · have him' : i ≠ m := fun e => him e.symm
        simp [him, him', hmem i]

/-- The inner loop passes its bound checks and keeps the invariant. -/
theorem grab_rows_ok (tbl : List AtomAgent) (ty : Nat) (ms : List Nat) :
    ∀ s : GrabState, s.ok tbl.length →
      ∃ s1, grab_rows tbl ty ms s = some s1 ∧ s1.ok tbl.length ∧ s1.warnings = s.warnings := by
  induction ms with
  | nil =>
    intro s h
    exact ⟨s, rfl, h, rfl⟩
  | cons m ms ih =>
    intro s h
    obtain ⟨s1, h1, hok1, hw1⟩ := grab_row_ok tbl ty s m h
    obtain ⟨s2, h2, hok2, hw2⟩ := ih s1 hok1
    exact ⟨s2, by simp [grab_rows, h1, h2], hok2, hw2.trans hw1⟩

/-- The outer loop passes its bound checks and keeps the invariant. -/
theorem grab_types_ok (tbl : List AtomAgent) (types : List Nat) :
    ∀ s : GrabState, s.ok tbl.length →
      ∃ s1, grab_types tbl types s = some s1 ∧ s1.ok tbl.length := by
  induction types with
  | nil =>
    intro s h
    exact ⟨s, rfl, h⟩
  | cons ty tys ih =>
    intro s h
    have h0 : GrabState.ok { s with found := false } tbl.length := h
    obtain ⟨s1, h1, hok1, _⟩ := grab_rows_ok tbl ty (List.range tbl.length) _ h0
    have hok1' : GrabState.ok (if s1.found then s1 else { s1 with warnings := s1.warnings + 1 })
        tbl.length := by
      split
      · exact hok1
      · exact hok1
    obtain ⟨s2, h2, hok2⟩ := ih _ hok1'
    exact ⟨s2, by simp [grab_types, h1, h2], hok2⟩

/-- The state before the loops satisfies the invariant. -/
theorem grabStart_ok (n : Nat) : (grabStart n).ok n := by
  refine ⟨by simp [grabStart], by simp [grabStart], by simp [grabStart, GrabState.written],
    by simp [grabStart, GrabState.written], ?_⟩
  intro i
  simp only [grabStart, GrabState.written, List.take_zero, List.filterMap_nil, List.map_nil,
    List.not_mem_nil, false_iff]
  intro h
  have := List.getElem?_eq_some.mp h
  obtain ⟨hlt, he⟩ := this
  simp at he

/-- C27: for every list of agent types the loops of `clipboard_grab` run to
their end: the check `num_targets < SPICE_N_ELEMENTS(atom2agent)` never fails.
Afterwards at most 13 targets are selected, they fill the slots
`targets[0 .. num_targets - 1]` of the 13-slot array, each carries in `info` the
index of a table row with its name, and the `info` values are pairwise
distinct: no table row is selected twice. -/
theorem clipboard_grab_bounded (types : List Nat) :
    ∃ s, clipboard_grab_targets types = some s ∧
      s.num_targets ≤ atom2agent.length ∧ s.targets.length = atom2agent.length ∧
      s.written.length = s.num_targets ∧ (s.written.map (·.info)).Nodup ∧
      (∀ e ∈ s.written, e.info < atom2agent.length) := by
  obtain ⟨s, hs, hok⟩ := grab_types_ok atom2agent types _ (grabStart_ok atom2agent.length)
  refine ⟨s, hs, ok_num_le s _ hok, hok.1, hok.2.2.1, hok.2.2.2.1, ?_⟩
  intro e he
  have hin : e.info ∈ s.written.map (·.info) := List.mem_map_of_mem _ he
  have := (hok.2.2.2.2 e.info).mp hin
  have hlt := (List.getElem?_eq_some.mp this).1
  have := hok.2.1
  omega

/-- The loops on a list that names every type, some twice, and an unknown
type: all 13 rows are selected, each once. -/
theorem clipboard_grab_all_rows :
    (clipboard_grab_targets [6, 6, 5, 4, 3, 2, 1, 1, 9]).map
        (fun s => (s.written.map (·.info), s.num_targets, s.warnings)) =
      some ([12, 11, 10, 6, 7, 8, 9, 5, 0, 1, 2, 3, 4], 13, 3) := by
  decide

/-- C28: `check_clipboard_size_limits` returns `TRUE` exactly when the length
is positive and either "max-clipboard" is -1 or the length does not exceed
it. -/
theorem size_limits_iff (max_clipboard clipboard_len : Int) :
    check_clipboard_size_limits max_clipboard clipboard_len = true ↔
      clipboard_len > 0 ∧ (max_clipboard = -1 ∨ clipboard_len ≤ max_clipboard) := by
  unfold check_clipboard_size_limits
  by_cases h1 : max_clipboard = -1 <;> by_cases h2 : clipboard_len > max_clipboard <;>
    by_cases h3 : clipboard_len ≤ 0 <;> simp [h1, h2, h3] <;> omega

/-- One call keeps the request count non-negative, moves it by at most one, and
only a request raises it. -/
theorem request_count (s s1 : UsbState) (state : Bool)
    (h : spice_gtk_session_request_auto_usbredir s state = some s1)
    (h0 : 0 ≤ s.auto_usbredir_reqs) :
    0 ≤ s1.auto_usbredir_reqs ∧
    s1.auto_usbredir_reqs ≤ s.auto_usbredir_reqs + (if state then 1 else 0) := by
  unfold spice_gtk_session_request_auto_usbredir request_auto_usbredir_apply at h
  cases state <;> simp only [if_true, if_false, Bool.false_eq_true] at h
  all_goals
    repeat' split at h
  all_goals
    first
      | (simp at h; done)
      | (simp only [Option.some.injEq] at h
         subst h
         simp
         omega)

/-- One call raises the request count by at most one and never above
`INT_MAX`. -/
theorem request_defined (s : UsbState) (state : Bool) (h : s.auto_usbredir_reqs < INT_MAX) :
    ∃ s1, spice_gtk_session_request_auto_usbredir s state = some s1 := by
  unfold spice_gtk_session_request_auto_usbredir
  have hne : s.auto_usbredir_reqs ≠ INT_MAX := ne_of_lt h
  cases state <;> simp only [if_true, if_false, Bool.false_eq_true, hne]
  all_goals
    repeat' split
  all_goals exact ⟨_, rfl⟩

/-- Any sequence of calls that is defined keeps the request count non-negative
and at most the count before plus the number of calls. -/
theorem requestAll_count (calls : List Bool) :
    ∀ s s1 : UsbState, 0 ≤ s.auto_usbredir_reqs → requestAll s calls = some s1 →
      0 ≤ s1.auto_usbredir_reqs ∧ s1.auto_usbredir_reqs ≤ s.auto_usbredir_reqs + calls.length := by
  induction calls with
  | nil =>
    intro s s1 h0 h
    simp only [requestAll, Option.some.injEq] at h
    subst h
    simpa using h0
  | cons state rest ih =>
    intro s s1 h0 h
    simp only [requestAll] at h
    split at h
    · simp at h
    · rename_i s2 hs2
      have hc := request_count s s2 state hs2 h0
      have hr := ih s2 s1 hc.1 h
      refine ⟨hr.1, ?_⟩
      have : (if state then (1 : Int) else 0) ≤ 1 := by split <;> simp
      simp only [List.length_cons, Nat.cast_add, Nat.cast_one]
      omega

/-- A sequence of calls is defined as long as the count cannot reach
`INT_MAX + 1`. -/
theorem requestAll_defined (calls : List Bool) :
    ∀ s : UsbState, 0 ≤ s.auto_usbredir_reqs →
      s.auto_usbredir_reqs + calls.length < 2 ^ 31 → ∃ s1, requestAll s calls = some s1 := by
  induction calls with
  | nil =>
    intro s _ _
    exact ⟨s, rfl⟩
  | cons state rest ih =>
    intro s h0 hlen
    simp only [List.length_cons, Nat.cast_add, Nat.cast_one] at hlen
    obtain ⟨s2, hs2⟩ := request_defined s state (by unfold INT_MAX; omega)
    have hc := request_count s s2 state hs2 h0
    have : (if state then (1 : Int) else 0) ≤ 1 := by split <;> simp
    obtain ⟨s1, hs1⟩ := ih s2 hc.1 (by omega)
    exact ⟨s1, by simp [requestAll, hs2, hs1]⟩

/-- C29: starting from a request count of 0, after any sequence of
`spice_gtk_session_request_auto_usbredir` calls the count is not negative (and
the sequence is defined, without `int` overflow, whenever it has fewer than
`2^31` calls); a release at a count of 0 or less is rejected with a warning and
changes neither the count nor the manager; and one call sets "auto-connect"
exactly when auto-usbredir is enabled, a manager exists and the call takes the
count from 0 to 1 (set to true) or from 1 to 0 (set to false), and makes no
call on the manager otherwise. -/
theorem usbredir_requests (enable manager : Bool) :
    (∀ calls s, requestAll (usbStart enable manager) calls = some s →
      0 ≤ s.auto_usbredir_reqs ∧ s.auto_usbredir_reqs ≤ calls.length) ∧
    (∀ calls : List Bool, (calls.length : Int) < 2 ^ 31 →
      ∃ s, requestAll (usbStart enable manager) calls = some s) ∧
    (∀ s : UsbState, s.auto_usbredir_reqs ≤ 0 →
      spice_gtk_session_request_auto_usbredir s false =
        some { s with criticals := s.criticals + 1 }) ∧
    (∀ (s s1 : UsbState) (state : Bool),
      spice_gtk_session_request_auto_usbredir s state = some s1 →
      s1.auto_usbredir_enable = s.auto_usbredir_enable ∧ s1.manager = s.manager ∧
      s1.events = s.events ++
        (if s.auto_usbredir_enable = true ∧ s.manager = true ∧
            ((state = true ∧ s.auto_usbredir_reqs = 0) ∨
              (state = false ∧ s.auto_usbredir_reqs = 1)) then
          [UsbEvent.autoConnect state, if state then UsbEvent.inhibit else UsbEvent.uninhibit]
        else [])) := by
  refine ⟨?_, ?_, ?_, ?_⟩
  · intro calls s h
    have := requestAll_count calls (usbStart enable manager) s (by simp [usbStart]) h
    simpa [usbStart] using this
  · intro calls hlen
    exact requestAll_defined calls (usbStart enable manager) (by simp [usbStart])
      (by simpa [usbStart] using hlen)
  · intro s h
    have h' : ¬ s.auto_usbredir_reqs > 0 := by omega
    simp [spice_gtk_session_request_auto_usbredir, h']
  · intro s s1 state h
    obtain ⟨en, reqs, mgr, events, crit⟩ := s
    unfold spice_gtk_session_request_auto_usbredir request_auto_usbredir_apply at h
    cases state <;> cases en <;> cases mgr <;>
      simp only [if_true, if_false, Bool.false_eq_true, Bool.not_true, Bool.not_false] at h
    all_goals
      repeat' split at h
    all_goals
      first
        | (simp at h; done)
        | (simp only [Option.some.injEq] at h
           subst h
           simp <;> first
             | omega
             | rw [if_pos (by omega)])

/-- A request, a second request, two releases and one release too many, with
auto-usbredir enabled and a manager present. -/
theorem usbredir_requests_witness :
    (requestAll (usbStart true true) [true, true, false, false, false] =
        some { auto_usbredir_enable := true, auto_usbredir_reqs := 0, manager := true,
               events := [UsbEvent.autoConnect true, UsbEvent.inhibit,
                 UsbEvent.autoConnect false, UsbEvent.uninhibit],
               criticals := 1 }) ∧
    (0 : Int) ≤ 0 ∧
    ((usbStart true true).auto_usbredir_reqs ≤ 0 ∧
      spice_gtk_session_request_auto_usbredir (usbStart true true) false =
        some { usbStart true true with criticals := (usbStart true true).criticals + 1 }) :=
  have h := (usbredir_requests true true).1 [true, true, false, false, false]
    { auto_usbredir_enable := true, auto_usbredir_reqs := 0, manager := true,
      events := [UsbEvent.autoConnect true, UsbEvent.inhibit,
        UsbEvent.autoConnect false, UsbEvent.uninhibit],
      criticals := 1 } (by decide)
  ⟨by decide, h.1, by decide, (usbredir_requests true true).2.2.1 (usbStart true true) (by decide)⟩

/-- The bytes written for a string are one more than its length. -/
theorem cstring_length (s : List Nat) : (cstring s).length = strlen s + 1 := by
  simp [cstring, strlen]

/-- The first loop of `strv_concat` adds up the lengths plus one modulo
`2^bits`. -/
theorem strv_size_mod (bits : Nat) (strv : List (List Nat)) :
    ∀ size, size < 2 ^ bits →
      strv_size bits strv size = (size + (strv.map fun s => strlen s + 1).sum) % 2 ^ bits := by
  induction strv with
  | nil =>
    intro size h
    simp [strv_size, Nat.mod_eq_of_lt h]
  | cons s rest ih =>
    intro size _
    simp only [strv_size, List.map_cons, List.sum_cons]
    rw [ih _ (Nat.mod_lt _ (Nat.two_pow_pos bits)), Nat.mod_add_mod, Nat.add_assoc]

/-- The second loop of `strv_concat` on a buffer with less room after `curr`
than the strings need writes beyond the end of the buffer. -/
theorem strv_copy_overruns (strv : List (List Nat)) :
    ∀ (arr : List (Option Nat)) (curr : Nat), curr ≤ arr.length →
      arr.length < curr + (strv.map fun s => strlen s + 1).sum →
      strv_copy strv arr curr = none := by
  induction strv with
  | nil =>
    intro arr curr h1 h2
    simp only [List.map_nil, List.sum_nil, Nat.add_zero] at h2
    omega
  | cons s rest ih =>
    intro arr curr h1 h2
    simp only [List.map_cons, List.sum_cons] at h2
    by_cases hfit : curr + (cstring s).length ≤ arr.length
    · simp only [strv_copy, g_stpcpy, hfit, if_true]
      rw [cstring_length] at hfit
      apply ih
      · simp only [List.length_append, List.length_take, List.length_map, List.length_drop,
          cstring_length]
        omega
      · simp only [List.length_append, List.length_take, List.length_map, List.length_drop,
          cstring_length]
        omega
    · simp [strv_copy, g_stpcpy, hfit]

/-- Outside the range of `strv_concat_result`: when the lengths plus one add up
to `2^bits` or more, `*size_out` holds the sum modulo `2^bits` and the copy
writes beyond the end of the buffer. -/
theorem strv_concat_overflow (bits : Nat) (strv : List (List Nat))
    (h : 2 ^ bits ≤ (strv.map fun s => strlen s + 1).sum) :
    strv_size bits strv 0 = (strv.map fun s => strlen s + 1).sum % 2 ^ bits ∧
    strv_concat bits strv = none := by
  have hs := strv_size_mod bits strv 0 (Nat.two_pow_pos bits)
  simp only [Nat.zero_add] at hs
  refine ⟨hs, ?_⟩
  have hlt : (strv.map fun s => strlen s + 1).sum % 2 ^ bits < 2 ^ bits :=
    Nat.mod_lt _ (Nat.two_pow_pos bits)
  have hc := strv_copy_overruns strv
    (List.replicate ((strv.map fun s => strlen s + 1).sum % 2 ^ bits) none) 0 (Nat.zero_le _)
    (by rw [List.length_replicate]; omega)
  simp only [strv_concat, hs, hc]

end GtkSession
